import Mathlib

set_option linter.unusedVariables false

open Classical

/-!
Verification of the masters disc-fitting toolkit (src/functions.py, src/testplot.py)
against its specification.  The Python source is shallowly embedded: 2D numpy
arrays become an `Image` structure (dimensions plus a pixel function), the
imperative scoring loops become explicit folds with an `Option` result (`none`
models a raised `IndexError` / `ZeroDivisionError`), and numpy floating point
arithmetic is modelled over the reals.
-/

/-- np.radians: degrees to radians. -/
noncomputable def radians (x : ℝ) : ℝ := x * (Real.pi / 180)

/-- Python int()/np.int(): truncation toward zero. -/
noncomputable def trunc (x : ℝ) : ℤ := if 0 ≤ x then ⌊x⌋ else ⌈x⌉

/-- functions.py, rotate (lines 19-22): rotates co-ordinates around a centre
point by an angle (degrees).  The formula is transcribed literally. -/
noncomputable def rotate (i j x_m y_m rot : ℝ) : ℝ × ℝ :=
  (i * Real.cos (radians rot) - j * Real.sin (radians rot)
     - x_m * Real.cos (radians rot) + y_m * Real.sin (radians rot),
   j * Real.cos (radians rot) + i * Real.sin (radians rot)
     - y_m * Real.cos (radians rot) - x_m * Real.sin (radians rot))

/-- A read-only 2D image: shape (H, W) and a pixel value function.
`pix i j` is the intensity at row i, column j (meaningful for i < H, j < W). -/
structure Image where
  H : ℕ
  W : ℕ
  pix : ℕ → ℕ → ℝ

/-- Python sequence indexing on an axis of length n: indices in [0, n) are
used as written, indices in [-n, 0) wrap around, anything else raises
IndexError (modelled as `none`). -/
def pyIdx (n : ℕ) (k : ℤ) : Option ℕ :=
  if 0 ≤ k ∧ k < (n : ℤ) then some k.toNat
  else if 0 ≤ k + n ∧ k < 0 then some (k + n).toNat
  else none

/-- Python float division: a/b, raising ZeroDivisionError on b = 0. -/
noncomputable def pydiv (a b : ℝ) : Option ℝ :=
  if b = 0 then none else some (a / b)

/-- radians 0 = 0. -/
theorem radians_zero : radians 0 = 0 := by simp [radians]

/-- np.radians(60) is pi/3. -/
theorem radians_sixty : radians 60 = Real.pi / 3 := by unfold radians; ring

/-- Truncation of a nonnegative real is its floor. -/
theorem trunc_of_nonneg {x : ℝ} (h : 0 ≤ x) : trunc x = ⌊x⌋ := if_pos h

/-- Truncation of a natural number literal. -/
theorem trunc_natCast (n : ℕ) : trunc (n : ℝ) = n := by
  rw [trunc_of_nonneg (by positivity)]; exact_mod_cast Int.floor_natCast n

/-- Truncation of zero. -/
theorem trunc_zero : trunc 0 = 0 := by
  rw [trunc_of_nonneg le_rfl]; exact Int.floor_zero

/-!
## functions.py, deproject (lines 33-46)

Stretches the image width by the factor 1/cos(inclination) with
nearest-neighbour resampling: the new width is np.int(w / cos(inc)) and
new_data[i, j] = data[i, np.int(j cos(inc))].  The print statement is a side
effect with no bearing on the returned array and is not modelled.
-/
noncomputable def deproject (data : Image) (inc : ℝ) : Image :=
  ⟨data.H, (trunc ((data.W : ℝ) / Real.cos (radians inc))).toNat,
   fun i j => data.pix i (trunc ((j : ℝ) * Real.cos (radians inc))).toNat⟩

/-!
## Claim C10: rotate is the rigid rotation of the centered offset vector
-/

/-- C10: for all real inputs, rotate returns exactly the counter-clockwise
rotation by rot degrees of the offset vector (i - x_m, j - y_m): its first
component is (i-x_m)cos(rho) - (j-y_m)sin(rho) and its second is
(j-y_m)cos(rho) + (i-x_m)sin(rho) with rho = radians rot; the squared distance
from the centre is preserved, and at rot = 0 it returns (i - x_m, j - y_m). -/
theorem rotate_is_rigid_rotation (i j x_m y_m rot : ℝ) :
    rotate i j x_m y_m rot =
      ((i - x_m) * Real.cos (radians rot) - (j - y_m) * Real.sin (radians rot),
       (j - y_m) * Real.cos (radians rot) + (i - x_m) * Real.sin (radians rot)) ∧
    (rotate i j x_m y_m rot).1 ^ 2 + (rotate i j x_m y_m rot).2 ^ 2 =
      (i - x_m) ^ 2 + (j - y_m) ^ 2 ∧
    rotate i j x_m y_m 0 = (i - x_m, j - y_m) := by
  refine ⟨?_, ?_, ?_⟩
  · unfold rotate
    exact Prod.ext (by ring) (by ring)
  · unfold rotate
    simp only
    linear_combination ((i - x_m) ^ 2 + (j - y_m) ^ 2) *
      Real.sin_sq_add_cos_sq (radians rot)
  · unfold rotate
    rw [radians_zero, Real.cos_zero, Real.sin_zero]
    exact Prod.ext (by ring) (by ring)

/-!
## Claim C7: deprojection identity and output shape
-/

/-- C7: deproject(image, 0) equals the image (same shape, same pixels), and
for 0 < inc < 90 the output has width floor(W / cos(radians inc)) and
unchanged height. -/
theorem deproject_identity_and_width (data : Image) :
    ((deproject data 0).H = data.H ∧ (deproject data 0).W = data.W ∧
      ∀ i j, i < data.H → j < data.W → (deproject data 0).pix i j = data.pix i j) ∧
    ∀ inc : ℝ, 0 < inc → inc < 90 →
      (deproject data inc).H = data.H ∧
      ((deproject data inc).W : ℤ) = ⌊(data.W : ℝ) / Real.cos (radians inc)⌋ := by
  constructor
  · refine ⟨rfl, ?_, ?_⟩
    · show (trunc ((data.W : ℝ) / Real.cos (radians 0))).toNat = data.W
      rw [radians_zero, Real.cos_zero, div_one, trunc_natCast]
      exact Int.toNat_natCast data.W
    · intro i j _ _
      show data.pix i (trunc ((j : ℝ) * Real.cos (radians 0))).toNat = data.pix i j
      rw [radians_zero, Real.cos_zero, mul_one, trunc_natCast, Int.toNat_natCast]
  · intro inc h0 h90
    have hcos : 0 < Real.cos (radians inc) := by
      apply Real.cos_pos_of_mem_Ioo
      constructor
      · have : 0 < radians inc := by
          unfold radians
          positivity
        linarith [Real.pi_pos]
      · show radians inc < Real.pi / 2
        unfold radians
        nlinarith [Real.pi_pos]
    refine ⟨rfl, ?_⟩
    show ((trunc ((data.W : ℝ) / Real.cos (radians inc))).toNat : ℤ) = _
    have hnn : (0 : ℝ) ≤ (data.W : ℝ) / Real.cos (radians inc) := by positivity
    rw [trunc_of_nonneg hnn]
    exact Int.toNat_of_nonneg (Int.floor_nonneg.mpr hnn)

/-- Witness for C7 at a concrete 2 by 3 image and inclination 60 degrees:
the deprojected width is floor(3 / cos(60 deg)) = 6 and the height stays 2. -/
theorem deproject_identity_and_width_witness :
    (0 : ℝ) < 60 ∧ (60 : ℝ) < 90 ∧
    (deproject ⟨2, 3, fun _ _ => 0⟩ 60).H = 2 ∧
    (deproject ⟨2, 3, fun _ _ => 0⟩ 60).W = 6 := by
  have h := (deproject_identity_and_width ⟨2, 3, fun _ _ => 0⟩).2 60 (by norm_num)
    (by norm_num)
  refine ⟨by norm_num, by norm_num, h.1, ?_⟩
  have hW : ((deproject ⟨2, 3, fun _ _ => 0⟩ 60).W : ℤ) =
      ⌊((3 : ℕ) : ℝ) / Real.cos (radians 60)⌋ := h.2
  rw [radians_sixty, Real.cos_pi_div_three] at hW
  norm_num at hW
  have : ((3 : ℝ) / (1 / 2)) = 6 := by norm_num
  omega

/-!
## functions.py, synthetic map generators (lines 64-112)

Each generator fills a size x size array; we model the array by the function
giving the value assigned to entry (i, j) (every entry is overwritten by the
loop body, and np.full's initial value `back` never survives).  The numpy
integer-dtype truncation that np.full(int back) would introduce is not
modelled: all intensities are reals.
-/

/-- Shared subexpression: the radial Gaussian profile
exp(-(R - r)^2 / (2 (th/2)^2)) evaluated at a radius R. -/
noncomputable def gaussKernel (R r th : ℝ) : ℝ :=
  Real.exp (-(R - r) ^ 2 / (2 * (th / 2) ^ 2))

/-- The deprojected radius used by test_map and test_map_mie (lines 69, 83):
sqrt((x / cos(radians inc))^2 + y^2) with (x, y) = rotate(i, j, x_m, y_m, rot).
The inclination compression is applied to the x component. -/
noncomputable def ellipseRadius (inc rot x_m y_m : ℝ) (i j : ℕ) : ℝ :=
  Real.sqrt (((rotate i j x_m y_m rot).1 / Real.cos (radians inc)) ^ 2 +
    (rotate i j x_m y_m rot).2 ^ 2)

/-- The radius used by hg_map (line 98): sqrt(x^2 + (y / cos(inc_rad))^2) --
the compression is applied to the y component instead. -/
noncomputable def hgRadius (inc rot x_m y_m : ℝ) (i j : ℕ) : ℝ :=
  Real.sqrt ((rotate i j x_m y_m rot).1 ^ 2 +
    ((rotate i j x_m y_m rot).2 / Real.cos (radians inc)) ^ 2)

/-- numpy arctan2(a, b): the argument of the point (b, a). -/
noncomputable def arctan2 (a b : ℝ) : ℝ := Complex.arg ⟨b, a⟩

/-- The per-pixel peak brightness of test_map_mie (lines 84-85):
surf_0 + surf_theta cos^2(0.5 (radians theta_max - theta + pi)) with
theta = arctan2(i - x_m, j - y_m). -/
noncomputable def mieSurf (surf_0 surf_theta theta_max x_m y_m : ℝ) (i j : ℕ) : ℝ :=
  surf_0 + surf_theta *
    Real.cos (0.5 * (radians theta_max - arctan2 ((i : ℝ) - x_m) ((j : ℝ) - y_m) +
      Real.pi)) ^ 2

/-- The Henyey-Greenstein factor of hg_map (lines 100-108): inferred height
z = -y tan(inc_rad), mod = sqrt(x^2 + y^2 + z^2), scattering cosine
op_vec = -z/mod (0 when mod = 0), and
p = (1 - g^2) / (4 pi (1 + g^2 + 2 g op_vec)^1.5). -/
noncomputable def hgPhase (inc rot x_m y_m g : ℝ) (i j : ℕ) : ℝ :=
  let x := (rotate i j x_m y_m rot).1
  let y := (rotate i j x_m y_m rot).2
  let z := -y * Real.tan (radians inc)
  let mod := Real.sqrt (x ^ 2 + y ^ 2 + z ^ 2)
  let op_vec := if mod = 0 then 0 else -z / mod
  (1 - g ^ 2) / (4 * Real.pi * (1 + g ^ 2 + 2 * g * op_vec) ^ (1.5 : ℝ))

/-- functions.py, test_map (lines 64-72): value written to entry (i, j). -/
noncomputable def test_map (r th inc rot x_m y_m surf back : ℝ) (size : ℕ)
    (i j : ℕ) : ℝ :=
  back + surf * Real.exp (-(Real.sqrt
    (((rotate i j x_m y_m rot).1 / Real.cos (radians inc)) ^ 2 +
      (rotate i j x_m y_m rot).2 ^ 2) - r) ^ 2 / (2 * (th / 2) ^ 2))

/-- functions.py, test_map_mie (lines 77-89): value written to entry (i, j). -/
noncomputable def test_map_mie (r th inc rot x_m y_m surf_0 surf_theta theta_max
    back : ℝ) (size : ℕ) (i j : ℕ) : ℝ :=
  back + (surf_0 + surf_theta *
      Real.cos (0.5 * (radians theta_max - arctan2 ((i : ℝ) - x_m) ((j : ℝ) - y_m) +
        Real.pi)) ^ 2) *
    Real.exp (-(Real.sqrt
      (((rotate i j x_m y_m rot).1 / Real.cos (radians inc)) ^ 2 +
        (rotate i j x_m y_m rot).2 ^ 2) - r) ^ 2 / (2 * (th / 2) ^ 2))

/-- functions.py, hg_map (lines 91-112): value written to entry (i, j).
The source rebinds inc to np.radians(inc) once at the top. -/
noncomputable def hg_map (r th inc rot x_m y_m g surf back : ℝ) (size : ℕ)
    (i j : ℕ) : ℝ :=
  let x := (rotate i j x_m y_m rot).1
  let y := (rotate i j x_m y_m rot).2
  let R := Real.sqrt (x ^ 2 + (y / Real.cos (radians inc)) ^ 2)
  let z := -y * Real.tan (radians inc)
  let mod := Real.sqrt (x ^ 2 + y ^ 2 + z ^ 2)
  let op_vec := if mod = 0 then 0 else -z / mod
  let p := (1 - g ^ 2) / (4 * Real.pi * (1 + g ^ 2 + 2 * g * op_vec) ^ (1.5 : ℝ))
  back + surf * p * Real.exp (-(R - r) ^ 2 / (2 * (th / 2) ^ 2))

/-!
## Claim C6: the three generators and their radial kernels
-/

/-- C6 (amended): each generator's output at a pixel is back plus a per-pixel
peak factor times a radial Gaussian kernel; test_map and test_map_mie evaluate
the kernel at the identical deprojected radius (compression on x), while
hg_map evaluates it at hgRadius, which applies the compression to y instead. -/
theorem maps_share_kernel_structure (r th inc rot x_m y_m surf back surf_0
    surf_theta theta_max g : ℝ) (size : ℕ) (i j : ℕ) :
    test_map r th inc rot x_m y_m surf back size i j =
      back + surf * gaussKernel (ellipseRadius inc rot x_m y_m i j) r th ∧
    test_map_mie r th inc rot x_m y_m surf_0 surf_theta theta_max back size i j =
      back + mieSurf surf_0 surf_theta theta_max x_m y_m i j *
        gaussKernel (ellipseRadius inc rot x_m y_m i j) r th ∧
    hg_map r th inc rot x_m y_m g surf back size i j =
      back + surf * hgPhase inc rot x_m y_m g i j *
        gaussKernel (hgRadius inc rot x_m y_m i j) r th := by
  refine ⟨rfl, rfl, rfl⟩

/-- Helper: at pixel (1, 0) with centre (0, 0) and rot = 0 the rotated offset
is (1, 0). -/
theorem rotate_one_zero : rotate (1 : ℕ) (0 : ℕ) 0 0 0 = (1, 0) := by
  unfold rotate
  rw [radians_zero, Real.cos_zero, Real.sin_zero]
  norm_num

/-- C6 counterexample: at inclination 60 degrees, pixel (1, 0), centre (0, 0),
r = 1, th = 2, surf = 1, back = 0, g = 0, the hg_map value is 1/(4 pi) while
test_map's value is exp(-1/2); were the two generators evaluating the identical
kernel and differing only in the peak factor (here hgPhase = 1/(4 pi) for
hg_map and surf = 1 for test_map), hg_map's value would equal
hgPhase * test_map's value; it does not, because hg_map's radius is
sqrt(x^2 + (y/cos)^2) = 1 whereas test_map's is sqrt((x/cos)^2 + y^2) = 2. -/
theorem hg_map_kernel_differs_from_test_map :
    hg_map 1 2 60 0 0 0 0 1 0 3 1 0 ≠
      hgPhase 60 0 0 0 0 1 0 * test_map 1 2 60 0 0 0 1 0 3 1 0 := by
  have hcos : Real.cos (radians 60) = 1 / 2 := by
    rw [radians_sixty]; exact Real.cos_pi_div_three
  have hrot := rotate_one_zero
  have hE : ellipseRadius 60 0 0 0 1 0 = 2 := by
    unfold ellipseRadius
    rw [hrot, hcos]
    norm_num
    rw [show (4 : ℝ) = 2 ^ 2 by norm_num, Real.sqrt_sq (by norm_num)]
  have hH : hgRadius 60 0 0 0 1 0 = 1 := by
    unfold hgRadius
    rw [hrot]
    norm_num
  have hphase : hgPhase 60 0 0 0 0 1 0 = 1 / (4 * Real.pi) := by
    unfold hgPhase
    rw [hrot]
    norm_num [Real.one_rpow]
  have htest : test_map 1 2 60 0 0 0 1 0 3 1 0 = Real.exp (-(1 / 2)) := by
    have h := (maps_share_kernel_structure 1 2 60 0 0 0 1 0 0 0 0 0 3 1 0).1
    rw [h, hE]
    unfold gaussKernel
    norm_num
  have hhg : hg_map 1 2 60 0 0 0 0 1 0 3 1 0 = 1 / (4 * Real.pi) := by
    have h := (maps_share_kernel_structure 1 2 60 0 0 0 1 0 0 0 0 0 3 1 0).2.2
    rw [h, hphase, hH]
    unfold gaussKernel
    norm_num
  rw [htest, hhg, hphase]
  have hexp : Real.exp (-(1 / 2)) < 1 := Real.exp_lt_one_iff.mpr (by norm_num)
  have hpi : 0 < Real.pi := Real.pi_pos
  intro hcontra
  have h1 : (1 : ℝ) / (4 * Real.pi) > 0 := by positivity
  nlinarith

/-!
## functions.py e_score (lines 199-228) and testplot.py score_ellipse (lines 99-130)

Both scorers sample the ellipse at np.linspace(0, 2 pi, 400), rotate each
sample by the rotation matrix R_rot, truncate to integer pixel coordinates
sq_x = int(x_m) + int(Ell_rot[0,i]), sq_y = int(y_m) + int(Ell_rot[1,i]), and
accumulate over the samples.  Array accesses data[sq_y, sq_x] follow Python
semantics: negative indices wrap, out-of-range indices raise (None).

e_score's loop body is
    if (mask[sq_y, sq_x] == 0): mask_no += 1
    score += data[sq_y, sq_x]
-- the mask is never written and the accumulation is unconditional, so every
sample contributes.  score_ellipse's loop body instead guards the
accumulation with the mask and sets mask[sq_y, sq_x] = True.
-/

/-- Sample pixel number k of the 400 linspace samples: t_k = 2 pi k / 399,
ellipse point (r cos t, r cos(radians inc) sin t) rotated by rot and
truncated; returns (sq_x, sq_y). -/
noncomputable def samplePixel (r inc rot x_m y_m : ℝ) (k : ℕ) : ℤ × ℤ :=
  let t := 2 * Real.pi * k / 399
  let e0 := r * Real.cos t
  let e1 := r * Real.cos (radians inc) * Real.sin t
  (trunc x_m + trunc (Real.cos (radians rot) * e0 - Real.sin (radians rot) * e1),
   trunc y_m + trunc (Real.sin (radians rot) * e0 + Real.cos (radians rot) * e1))

/-- One iteration of e_score's sample loop.  State: (mask, mask_no, score).
The mask entry is read (it decides mask_no) but never written, and the score
accumulates unconditionally, exactly as in the source. -/
noncomputable def eStep (data : Image) (st : (ℕ → ℕ → ℕ) × ℕ × ℝ) (p : ℤ × ℤ) :
    Option ((ℕ → ℕ → ℕ) × ℕ × ℝ) :=
  match pyIdx data.H p.2, pyIdx data.W p.1 with
  | some a, some b =>
      some (st.1, (if st.1 a b = 0 then st.2.1 + 1 else st.2.1),
        st.2.2 + data.pix a b)
  | _, _ => none

/-- e_score's sample loop over a list of sample pixels. -/
noncomputable def eLoop (data : Image) :
    List (ℤ × ℤ) → ((ℕ → ℕ → ℕ) × ℕ × ℝ) → Option ((ℕ → ℕ → ℕ) × ℕ × ℝ)
  | [], st => some st
  | p :: ps, st => (eStep data st p).bind (eLoop data ps)

/-- functions.py, e_score (lines 199-228): returns the raw accumulated score. -/
noncomputable def e_score (r inc rot x_m y_m : ℝ) (data : Image) : Option ℝ :=
  (eLoop data ((List.range 400).map (samplePixel r inc rot x_m y_m))
    (fun _ _ => 0, 0, 0)).map (fun st => st.2.2)

/-- One iteration of score_ellipse's sample loop (testplot.py lines 113-128):
the accumulation happens only when the pixel is unvisited, and the mask is
then set. -/
noncomputable def sStep (data : Image) (st : (ℕ → ℕ → Bool) × ℕ × ℝ)
    (p : ℤ × ℤ) : Option ((ℕ → ℕ → Bool) × ℕ × ℝ) :=
  match pyIdx data.H p.2, pyIdx data.W p.1 with
  | some a, some b =>
      if st.1 a b = false then
        some (fun a2 b2 => if a2 = a ∧ b2 = b then true else st.1 a2 b2,
          st.2.1 + 1, st.2.2 + data.pix a b)
      else some st
  | _, _ => none

/-- score_ellipse's sample loop. -/
noncomputable def sLoop (data : Image) :
    List (ℤ × ℤ) → ((ℕ → ℕ → Bool) × ℕ × ℝ) → Option ((ℕ → ℕ → Bool) × ℕ × ℝ)
  | [], st => some st
  | p :: ps, st => (sStep data st p).bind (sLoop data ps)

/-- testplot.py, score_ellipse (lines 99-130): raw deduplicated score. -/
noncomputable def score_ellipse (r inc t_rot x_m y_m : ℝ) (data : Image) :
    Option ℝ :=
  (sLoop data ((List.range 400).map (samplePixel r inc t_rot x_m y_m))
    (fun _ _ => false, 0, 0)).map (fun st => st.2.2)

/-- With radius r = 0 every sample collapses to the truncated centre pixel. -/
theorem samplePixel_of_radius_zero (inc rot x_m y_m : ℝ) (k : ℕ) :
    samplePixel 0 inc rot x_m y_m k = (trunc x_m, trunc y_m) := by
  unfold samplePixel
  simp [trunc_zero]

/-- Helper: e_score's loop over a constant sample-pixel list resolving to an
in-bounds pixel (a, b) adds the pixel's intensity once per sample and bumps
mask_no each time (the all-zero mask is never updated). -/
theorem eLoop_const (data : Image) (sx sy : ℤ) (a b : ℕ)
    (ha : pyIdx data.H sy = some a) (hb : pyIdx data.W sx = some b) :
    ∀ ps : List (ℤ × ℤ), (∀ p ∈ ps, p = (sx, sy)) → ∀ no : ℕ, ∀ sc : ℝ,
      eLoop data ps (fun _ _ => 0, no, sc) =
        some (fun _ _ => 0, no + ps.length,
          sc + ps.length * data.pix a b) := by
  intro ps
  induction ps with
  | nil => intro _ no sc; simp [eLoop]
  | cons q t ih =>
      intro hmem no sc
      have hq : q = (sx, sy) := hmem q (List.mem_cons_self q t)
      subst hq
      show (eStep data (fun _ _ => 0, no, sc) (sx, sy)).bind (eLoop data t) = _
      rw [show eStep data (fun _ _ => 0, no, sc) (sx, sy) =
          some (fun _ _ => 0, no + 1, sc + data.pix a b) by
        unfold eStep; rw [ha, hb]; simp]
      rw [Option.some_bind,
        ih (fun p hp => hmem p (List.mem_cons_of_mem _ hp)) (no + 1)
          (sc + data.pix a b)]
      simp only [List.length_cons, Nat.cast_add, Nat.cast_one, Option.some.injEq,
        Prod.mk.injEq]
      refine ⟨trivial, by omega, by ring⟩

/-- Helper: once the resolved pixel is already masked, score_ellipse's loop
over further samples of that same pixel leaves the state unchanged. -/
theorem sLoop_skip (data : Image) (sx sy : ℤ) (a b : ℕ)
    (ha : pyIdx data.H sy = some a) (hb : pyIdx data.W sx = some b) :
    ∀ ps : List (ℤ × ℤ), (∀ p ∈ ps, p = (sx, sy)) →
      ∀ st : (ℕ → ℕ → Bool) × ℕ × ℝ, st.1 a b = true →
        sLoop data ps st = some st := by
  intro ps
  induction ps with
  | nil => intro _ st _; rfl
  | cons q t ih =>
      intro hmem st hmask
      have hq : q = (sx, sy) := hmem q (List.mem_cons_self q t)
      subst hq
      show (sStep data st (sx, sy)).bind (sLoop data t) = some st
      rw [show sStep data st (sx, sy) = some st by
        unfold sStep; rw [ha, hb]; simp [hmask]]
      rw [Option.some_bind]
      exact ih (fun p hp => hmem p (List.mem_cons_of_mem _ hp)) st hmask

/-- Helper: starting from a fresh mask, score_ellipse's loop over a nonempty
constant sample-pixel list accumulates the pixel's intensity exactly once. -/
theorem sLoop_const_fresh (data : Image) (sx sy : ℤ) (a b : ℕ)
    (ha : pyIdx data.H sy = some a) (hb : pyIdx data.W sx = some b) :
    ∀ ps : List (ℤ × ℤ), (∀ p ∈ ps, p = (sx, sy)) → ps ≠ [] → ∀ no : ℕ, ∀ sc : ℝ,
      ∃ m, sLoop data ps (fun _ _ => false, no, sc) =
        some (m, no + 1, sc + data.pix a b) := by
  intro ps hmem hne no sc
  match ps with
  | [] => exact absurd rfl hne
  | q :: t =>
      have hq : q = (sx, sy) := hmem q (List.mem_cons_self q t)
      subst hq
      refine ⟨fun a2 b2 => if a2 = a ∧ b2 = b then true else false, ?_⟩
      show (sStep data (fun _ _ => false, no, sc) (sx, sy)).bind (sLoop data t) = _
      rw [show sStep data (fun _ _ => false, no, sc) (sx, sy) =
          some (fun a2 b2 => if a2 = a ∧ b2 = b then true else false,
            no + 1, sc + data.pix a b) by
        unfold sStep; rw [ha, hb]; simp]
      rw [Option.some_bind]
      exact sLoop_skip data sx sy a b ha hb t
        (fun p hp => hmem p (List.mem_cons_of_mem _ hp))
        (fun a2 b2 => if a2 = a ∧ b2 = b then true else false,
          no + 1, sc + data.pix a b) (by simp)

/-- The concrete 282 x 282 image for claim C1: intensity 1 at pixel (10, 10)
and 0 elsewhere. -/
noncomputable def imgC1 : Image :=
  ⟨282, 282, fun a b => if a = 10 ∧ b = 10 then 1 else 0⟩

/-- trunc 10 = 10. -/
theorem trunc_ten : trunc (10 : ℝ) = 10 := by
  rw [show (10 : ℝ) = ((10 : ℕ) : ℝ) by norm_num, trunc_natCast]
  norm_num

/-!
## Claim C1: deduplicated accumulation in the ellipse scorers
-/

/-- C1 (code bug evaluation): with r = 0 every one of the 400 samples
truncates to the single pixel (10, 10), whose intensity is 1.  The claim (and
e_score's own comment) say each distinct visited pixel is accumulated exactly
once, which would give a raw score of 1 -- as score_ellipse indeed returns.
e_score instead returns 400: its mask is never written and its accumulation
line sits outside the dedup branch, so every duplicate sample contributes
again. -/
theorem e_score_counts_duplicate_pixels :
    e_score 0 0 0 10 10 imgC1 = some 400 ∧
    score_ellipse 0 0 0 10 10 imgC1 = some 1 := by
  have ha : pyIdx imgC1.H 10 = some 10 := by decide
  have hb : pyIdx imgC1.W 10 = some 10 := by decide
  have hsp : ∀ p ∈ (List.range 400).map (samplePixel 0 0 0 10 10),
      p = ((10 : ℤ), (10 : ℤ)) := by
    intro p hp
    rcases List.mem_map.mp hp with ⟨k, _, hk⟩
    rw [← hk, samplePixel_of_radius_zero, trunc_ten]
  have hpix : imgC1.pix 10 10 = 1 := by simp [imgC1]
  have hlen : ((List.range 400).map (samplePixel 0 0 0 10 10)).length = 400 := by
    simp
  constructor
  · have he := eLoop_const imgC1 10 10 10 10 ha hb
      ((List.range 400).map (samplePixel 0 0 0 10 10)) hsp 0 0
    rw [hlen, hpix] at he
    unfold e_score
    rw [he]
    norm_num
  · obtain ⟨m, hs⟩ := sLoop_const_fresh imgC1 10 10 10 10 ha hb
      ((List.range 400).map (samplePixel 0 0 0 10 10)) hsp (by simp) 0 0
    rw [hpix] at hs
    unfold score_ellipse
    rw [hs]
    norm_num

/-!
## Annulus scorers: functions.py a_score (333-352), testplot.py score_annulus (213-230)

Both loop i and j over the HARD-CODED range(0, 282) (not the image shape),
test a band condition on a deprojected distance, and on first visit of a
qualifying pixel add its intensity and bump mask_no; finally they return
score / mask_no with mask_no floored to 1.  The mask array has the shape of
the source image (data for a_score, the module-level qphi for score_annulus),
so a qualifying pixel outside that shape raises IndexError (none).
-/

/-- The fixed iteration domain of both annulus scorers: (i, j) with
0 <= i, j < 282, in loop order. -/
def grid282 : List (ℕ × ℕ) :=
  (List.range 282).flatMap fun i => (List.range 282).map fun j => (i, j)

/-- Membership in grid282. -/
theorem mem_grid282 (p : ℕ × ℕ) : p ∈ grid282 ↔ p.1 < 282 ∧ p.2 < 282 := by
  cases p with
  | mk i j =>
      simp only [grid282, List.mem_flatMap, List.mem_map, List.mem_range,
        Prod.mk.injEq]
      constructor
      · rintro ⟨a, ha, b, hb, rfl, rfl⟩
        exact ⟨ha, hb⟩
      · rintro ⟨hi, hj⟩
        exact ⟨i, hi, j, hj, rfl, rfl⟩

/-- A flatMap of nodup lists is nodup when a projection recovers the outer
element from every inner element. -/
theorem nodup_flatMap_tag {α β : Type} (l : List α) (f : α → List β) (g : β → α)
    (hl : l.Nodup) (hf : ∀ a, (f a).Nodup) (hg : ∀ a, ∀ b ∈ f a, g b = a) :
    (l.flatMap f).Nodup := by
  rw [List.nodup_flatMap]
  refine ⟨fun a _ => hf a, ?_⟩
  refine hl.imp ?_
  intro a a2 hne
  show List.Disjoint (f a) (f a2)
  intro b hb hb2
  exact hne ((hg a b hb).symm.trans (hg a2 b hb2))

/-- grid282 has no repeated pixel. -/
theorem nodup_grid282 : grid282.Nodup := by
  refine nodup_flatMap_tag _ _ Prod.fst (List.nodup_range 282) ?_ ?_
  · intro a
    exact (List.nodup_range 282).map (fun x y h => by cases Prod.mk.injEq a x a y ▸ h; omega)
  · intro a b hb
    rcases List.mem_map.mp hb with ⟨j, _, hj⟩
    rw [← hj]

/-- One iteration of the annulus scoring loops.  P is the band-inclusion
condition, src the array whose shape bounds the mask and whose pixels are
accumulated.  State: (mask, mask_no, score). -/
noncomputable def bandStep (P : ℕ → ℕ → Prop) (src : Image)
    (st : (ℕ → ℕ → Bool) × ℕ × ℝ) (p : ℕ × ℕ) :
    Option ((ℕ → ℕ → Bool) × ℕ × ℝ) :=
  if P p.1 p.2 then
    if p.1 < src.H ∧ p.2 < src.W then
      if st.1 p.1 p.2 = false then
        some (fun a2 b2 => if a2 = p.1 ∧ b2 = p.2 then true else st.1 a2 b2,
          st.2.1 + 1, st.2.2 + src.pix p.1 p.2)
      else some st
    else none
  else some st

/-- The annulus scoring loop over a pixel list. -/
noncomputable def bandLoop (P : ℕ → ℕ → Prop) (src : Image) :
    List (ℕ × ℕ) → ((ℕ → ℕ → Bool) × ℕ × ℝ) → Option ((ℕ → ℕ → Bool) × ℕ × ℝ)
  | [], st => some st
  | p :: ps, st => (bandStep P src st p).bind (bandLoop P src ps)

/-- The qualifying pixels of the 282 x 282 loop domain, in loop order. -/
noncomputable def bandHits (P : ℕ → ℕ → Prop) : List (ℕ × ℕ) :=
  grid282.filter fun p => decide (P p.1 p.2)

/-- Helper: over a nodup pixel list whose qualifying pixels are all inside
src's shape and unmasked, the loop completes and returns the count of
qualifying pixels and the sum of their intensities (each counted once). -/
theorem bandLoop_filter (P : ℕ → ℕ → Prop) (src : Image) :
    ∀ L : List (ℕ × ℕ), L.Nodup →
      (∀ p ∈ L, P p.1 p.2 → p.1 < src.H ∧ p.2 < src.W) →
      ∀ (mask : ℕ → ℕ → Bool) (no : ℕ) (sc : ℝ),
        (∀ p ∈ L, mask p.1 p.2 = false) →
        ∃ m, bandLoop P src L (mask, no, sc) =
          some (m, no + (L.filter fun p => decide (P p.1 p.2)).length,
            sc + ((L.filter fun p => decide (P p.1 p.2)).map
              fun p => src.pix p.1 p.2).sum) := by
  intro L
  induction L with
  | nil => intro _ _ mask no sc _; exact ⟨mask, by simp [bandLoop]⟩
  | cons q t ih =>
      intro hnd hinb mask no sc hmask
      have hndt : t.Nodup := hnd.of_cons
      have hqt : q ∉ t := (List.nodup_cons.mp hnd).1
      by_cases hP : P q.1 q.2
      · have hb : q.1 < src.H ∧ q.2 < src.W :=
          hinb q (List.mem_cons_self q t) hP
        have hm : mask q.1 q.2 = false := hmask q (List.mem_cons_self q t)
        have hstep : bandStep P src (mask, no, sc) q =
            some (fun a2 b2 => if a2 = q.1 ∧ b2 = q.2 then true else mask a2 b2,
              no + 1, sc + src.pix q.1 q.2) := by
          unfold bandStep
          rw [if_pos hP, if_pos hb, if_pos hm]
        have hmask2 : ∀ p ∈ t,
            (fun a2 b2 => if a2 = q.1 ∧ b2 = q.2 then true else mask a2 b2)
              p.1 p.2 = false := by
          intro p hp
          have hpq : p ≠ q := fun h => hqt (h ▸ hp)
          simp only
          rw [if_neg, hmask p (List.mem_cons_of_mem _ hp)]
          intro ⟨h1, h2⟩
          exact hpq (Prod.ext h1 h2)
        obtain ⟨m, hm2⟩ := ih hndt
          (fun p hp => hinb p (List.mem_cons_of_mem _ hp))
          (fun a2 b2 => if a2 = q.1 ∧ b2 = q.2 then true else mask a2 b2)
          (no + 1) (sc + src.pix q.1 q.2) hmask2
        refine ⟨m, ?_⟩
        show (bandStep P src (mask, no, sc) q).bind (bandLoop P src t) = _
        rw [hstep, Option.some_bind, hm2]
        simp only [List.filter_cons, decide_eq_true_eq, hP, if_pos,
          List.length_cons, List.map_cons, List.sum_cons, Option.some.injEq,
          Prod.mk.injEq]
        refine ⟨trivial, by omega, by ring⟩
      · have hstep : bandStep P src (mask, no, sc) q = some (mask, no, sc) := by
          unfold bandStep
          rw [if_neg hP]
        obtain ⟨m, hm2⟩ := ih hndt
          (fun p hp => hinb p (List.mem_cons_of_mem _ hp)) mask no sc
          (fun p hp => hmask p (List.mem_cons_of_mem _ hp))
        refine ⟨m, ?_⟩
        show (bandStep P src (mask, no, sc) q).bind (bandLoop P src t) = _
        rw [hstep, Option.some_bind, hm2]
        simp only [List.filter_cons, decide_eq_true_eq, hP, if_false]

/-- Helper: if some listed pixel qualifies but lies outside src's shape, the
loop raises (models numpy IndexError on the mask/pixel access). -/
theorem bandLoop_oob (P : ℕ → ℕ → Prop) (src : Image) :
    ∀ L : List (ℕ × ℕ), ∀ p ∈ L, P p.1 p.2 →
      ¬(p.1 < src.H ∧ p.2 < src.W) →
      ∀ st, bandLoop P src L st = none := by
  intro L
  induction L with
  | nil => intro p hp; exact absurd hp (List.not_mem_nil p)
  | cons q t ih =>
      intro p hp hP hoob st
      rcases List.mem_cons.mp hp with hq | hpt
      · subst hq
        show (bandStep P src st p).bind (bandLoop P src t) = none
        rw [show bandStep P src st p = none by
          unfold bandStep; rw [if_pos hP, if_neg hoob]]
        rfl
      · show (bandStep P src st q).bind (bandLoop P src t) = none
        cases h : bandStep P src st q with
        | none => rfl
        | some st2 =>
            rw [Option.some_bind]
            exact ih p hpt hP hoob st2

/-- functions.py, a_z (lines 286-289): the deprojected elliptical distance
sqrt(x^2 + y^2 / cos(radians inc)) -- note the source divides the SQUARE of y
by cos, it does not square y/cos. -/
noncomputable def a_z (i j inc rot x_m y_m : ℝ) : ℝ :=
  Real.sqrt ((rotate i j x_m y_m rot).1 ^ 2 +
    (rotate i j x_m y_m rot).2 ^ 2 / Real.cos (radians inc))

/-- The band-inclusion test of a_score with an already-clamped thickness th2:
r - th2/2 < z < r + th2/2. -/
noncomputable def aCond (r th2 inc rot x_m y_m : ℝ) (i j : ℕ) : Prop :=
  r - th2 / 2 < a_z i j inc rot x_m y_m ∧ a_z i j inc rot x_m y_m < r + th2 / 2

/-- functions.py, a_score (lines 333-352): clamps th below 1 to 1, loops over
the fixed 282 x 282 grid, accumulates each qualifying pixel of `data` once,
floors mask_no to 1, and returns score / mask_no. -/
noncomputable def a_score (r th inc rot x_m y_m : ℝ) (data : Image) : Option ℝ :=
  (bandLoop (aCond r (if th < 1 then 1 else th) inc rot x_m y_m) data grid282
    (fun _ _ => false, 0, 0)).map
    fun st => st.2.2 / (if st.2.1 = 0 then 1 else (st.2.1 : ℝ))

/-- The inline distance expression of testplot.py score_annulus (line 221):
the SQUARED deprojected elliptical distance (no square root is taken),
with the y part divided by cos before squaring. -/
noncomputable def annulusZsq (i j inc t_rot x_m y_m : ℝ) : ℝ :=
  (i * Real.cos (radians t_rot) - j * Real.sin (radians t_rot)
      - x_m * Real.cos (radians t_rot) + y_m * Real.sin (radians t_rot)) ^ 2 +
  ((j * Real.cos (radians t_rot) + i * Real.sin (radians t_rot)
      - y_m * Real.cos (radians t_rot) - x_m * Real.sin (radians t_rot)) /
    Real.cos (radians inc)) ^ 2

/-- The band-inclusion test of score_annulus (line 222):
z < r - th/2 and z < r + th/2 -- one-sided in effect, and applied to the
squared distance; th is not clamped. -/
noncomputable def sCond (r th inc t_rot x_m y_m : ℝ) (i j : ℕ) : Prop :=
  annulusZsq i j inc t_rot x_m y_m < r - th / 2 ∧
  annulusZsq i j inc t_rot x_m y_m < r + th / 2

/-- testplot.py, score_annulus (lines 213-230): the mask shape comes from the
module-level qphi, the accumulated intensities are qphi's (NOT those of the
data argument, which is ignored), the loop covers the fixed 282 x 282 grid,
and the returned value is score / max(1, mask_no). -/
noncomputable def score_annulus (qphi : Image) (r th inc t_rot x_m y_m : ℝ)
    (data : Image) : Option ℝ :=
  (bandLoop (sCond r th inc t_rot x_m y_m) qphi grid282
    (fun _ _ => false, 0, 0)).map
    fun st => st.2.2 / (if st.2.1 = 0 then 1 else (st.2.1 : ℝ))

/-- functions.py, e_r_score (lines 232-237): 1 / e_score, with NO guard
against a zero score. -/
noncomputable def e_r_score (r inc rot x_m y_m : ℝ) (data : Image) : Option ℝ :=
  (e_score r inc rot x_m y_m data).bind fun score => pydiv 1 score

/-- functions.py, a_r_score (lines 356-363): 1 / a_score, with a zero score
first replaced by 0.001. -/
noncomputable def a_r_score (r th inc rot x_m y_m : ℝ) (data : Image) :
    Option ℝ :=
  (a_score r th inc rot x_m y_m data).bind fun score =>
    pydiv 1 (if score = 0 then 0.001 else score)

/-- Helper: a_score's closed form when every qualifying pixel of the 282 grid
fits inside the image: the mean over the qualifying pixels, with the count
floored to 1. -/
theorem a_score_eq_mean (r th inc rot x_m y_m : ℝ) (data : Image)
    (hin : ∀ i j, i < 282 → j < 282 →
      aCond r (if th < 1 then 1 else th) inc rot x_m y_m i j →
      i < data.H ∧ j < data.W) :
    a_score r th inc rot x_m y_m data = some
      (((bandHits (aCond r (if th < 1 then 1 else th) inc rot x_m y_m)).map
          fun p => data.pix p.1 p.2).sum /
        (if (bandHits (aCond r (if th < 1 then 1 else th) inc rot x_m
            y_m)).length = 0 then 1
          else ((bandHits (aCond r (if th < 1 then 1 else th) inc rot x_m
            y_m)).length : ℝ))) := by
  obtain ⟨m, hm⟩ := bandLoop_filter
    (aCond r (if th < 1 then 1 else th) inc rot x_m y_m) data grid282
    nodup_grid282
    (fun p hp hP => hin p.1 p.2 ((mem_grid282 p).mp hp).1
      ((mem_grid282 p).mp hp).2 hP)
    (fun _ _ => false) 0 0 (fun _ _ => rfl)
  unfold a_score
  rw [hm]
  simp only [zero_add, bandHits]
  rfl

/-- Helper: score_annulus's closed form when every qualifying pixel fits
inside qphi: the mean over the qualifying pixels of qphi, count floored
to 1; the data argument plays no role. -/
theorem score_annulus_eq_mean (qphi : Image) (r th inc t_rot x_m y_m : ℝ)
    (data : Image)
    (hin : ∀ i j, i < 282 → j < 282 → sCond r th inc t_rot x_m y_m i j →
      i < qphi.H ∧ j < qphi.W) :
    score_annulus qphi r th inc t_rot x_m y_m data = some
      (((bandHits (sCond r th inc t_rot x_m y_m)).map
          fun p => qphi.pix p.1 p.2).sum /
        (if (bandHits (sCond r th inc t_rot x_m y_m)).length = 0 then 1
          else ((bandHits (sCond r th inc t_rot x_m y_m)).length : ℝ))) := by
  obtain ⟨m, hm⟩ := bandLoop_filter (sCond r th inc t_rot x_m y_m) qphi grid282
    nodup_grid282
    (fun p hp hP => hin p.1 p.2 ((mem_grid282 p).mp hp).1
      ((mem_grid282 p).mp hp).2 hP)
    (fun _ _ => false) 0 0 (fun _ _ => rfl)
  unfold score_annulus
  rw [hm]
  simp only [zero_add, bandHits]
  rfl

/-- Helper: filtering keeps nothing when no listed element qualifies. -/
theorem bandHits_nil (P : ℕ → ℕ → Prop)
    (h : ∀ i j, i < 282 → j < 282 → ¬P i j) : bandHits P = [] := by
  unfold bandHits
  rw [List.filter_eq_nil_iff]
  intro p hp
  have hm := (mem_grid282 p).mp hp
  simpa using h p.1 p.2 hm.1 hm.2

/-!
## Claim C5: degenerate annulus returns 0 with no division error
-/

/-- C5: if no pixel of the scoring domain satisfies the (clamped) band
condition r - th/2 < z < r + th/2, a_score completes without any division or
index error and returns exactly 0: the numerator is 0 while mask_no is
floored to 1. -/
theorem a_score_degenerate_returns_zero (r th inc rot x_m y_m : ℝ)
    (data : Image)
    (h : ∀ i j, i < 282 → j < 282 →
      ¬aCond r (if th < 1 then 1 else th) inc rot x_m y_m i j) :
    a_score r th inc rot x_m y_m data = some 0 := by
  rw [a_score_eq_mean r th inc rot x_m y_m data
    (fun i j hi hj hc => absurd hc (h i j hi hj))]
  rw [bandHits_nil _ h]
  norm_num

/-- Any a_z value is nonnegative (it is a square root). -/
theorem a_z_nonneg (i j inc rot x_m y_m : ℝ) : 0 ≤ a_z i j inc rot x_m y_m :=
  Real.sqrt_nonneg _

/-- Helper: with r = -5 and th = 1 the band lies entirely below 0, so no
pixel can qualify. -/
theorem no_pixel_in_negative_band :
    ∀ i j : ℕ, i < 282 → j < 282 →
      ¬aCond (-5) (if (1 : ℝ) < 1 then 1 else 1) 0 0 0 0 i j := by
  intro i j _ _ hc
  have h2 := hc.2
  rw [if_neg (lt_irrefl (1 : ℝ))] at h2
  have := a_z_nonneg i j 0 0 0 0
  linarith

/-- Witness for C5: at r = -5, th = 1 nothing qualifies and a_score returns
some 0 even on a 1 x 1 image. -/
theorem a_score_degenerate_returns_zero_witness :
    (∀ i j : ℕ, i < 282 → j < 282 →
      ¬aCond (-5) (if (1 : ℝ) < 1 then 1 else 1) 0 0 0 0 i j) ∧
    a_score (-5) 1 0 0 0 0 ⟨1, 1, fun _ _ => 0⟩ = some 0 :=
  ⟨no_pixel_in_negative_band,
    a_score_degenerate_returns_zero (-5) 1 0 0 0 0 ⟨1, 1, fun _ _ => 0⟩
      no_pixel_in_negative_band⟩

/-!
## Claim C4: epsilon guards in the reciprocal cost functions
-/

/-- C4 (amended): a_r_score substitutes 0.001 for a zero raw score before
reciprocation, so whenever a_score returns a value, a_r_score returns a value
too -- it never divides by zero. -/
theorem a_r_score_never_divides_by_zero (r th inc rot x_m y_m : ℝ)
    (data : Image) (s : ℝ) (h : a_score r th inc rot x_m y_m data = some s) :
    a_r_score r th inc rot x_m y_m data =
      some (1 / (if s = 0 then 0.001 else s)) := by
  unfold a_r_score
  rw [h, Option.some_bind]
  unfold pydiv
  rw [if_neg]
  by_cases hs : s = 0
  · rw [if_pos hs]; norm_num
  · rw [if_neg hs]; exact hs

/-- Helper: a_score at the degenerate r = -5 annulus on a 1 x 1 image. -/
theorem a_score_noband_eval :
    a_score (-5) 1 0 0 0 0 ⟨1, 1, fun _ _ => 0⟩ = some 0 :=
  a_score_degenerate_returns_zero (-5) 1 0 0 0 0 ⟨1, 1, fun _ _ => 0⟩
    no_pixel_in_negative_band

/-- Witness for C4: with raw score 0 the guard kicks in and a_r_score returns
1/0.001 = 1000. -/
theorem a_r_score_never_divides_by_zero_witness :
    a_score (-5) 1 0 0 0 0 ⟨1, 1, fun _ _ => 0⟩ = some 0 ∧
    a_r_score (-5) 1 0 0 0 0 ⟨1, 1, fun _ _ => 0⟩ = some 1000 := by
  refine ⟨a_score_noband_eval, ?_⟩
  have h := a_r_score_never_divides_by_zero (-5) 1 0 0 0 0
    ⟨1, 1, fun _ _ => 0⟩ 0 a_score_noband_eval
  rw [h]
  norm_num

/-- The all-zero 282 x 282 image. -/
noncomputable def img0 : Image := ⟨282, 282, fun _ _ => 0⟩

/-- Helper: e_score with r = 0 centred at (10, 10) on the all-zero image:
all 400 samples land on pixel (10, 10), whose intensity is 0, so the raw
score is exactly 0. -/
theorem e_score_zero_on_img0 : e_score 0 0 0 10 10 img0 = some 0 := by
  have ha : pyIdx img0.H 10 = some 10 := by decide
  have hb : pyIdx img0.W 10 = some 10 := by decide
  have hsp : ∀ p ∈ (List.range 400).map (samplePixel 0 0 0 10 10),
      p = ((10 : ℤ), (10 : ℤ)) := by
    intro p hp
    rcases List.mem_map.mp hp with ⟨k, _, hk⟩
    rw [← hk, samplePixel_of_radius_zero, trunc_ten]
  have he := eLoop_const img0 10 10 10 10 ha hb
    ((List.range 400).map (samplePixel 0 0 0 10 10)) hsp 0 0
  unfold e_score
  rw [he]
  show some ((0 : ℝ) + _ * img0.pix 10 10) = some 0
  show some ((0 : ℝ) + _ * (0 : ℝ)) = some 0
  norm_num

/-- C4 counterexample: e_r_score has NO epsilon guard.  On the all-zero image
the raw ellipse score is exactly 0 and e_r_score computes 1/0, a
ZeroDivisionError (none) -- contradicting the claim that every
reciprocal-score cost function substitutes an epsilon before reciprocating. -/
theorem e_r_score_divides_by_zero :
    e_score 0 0 0 10 10 img0 = some 0 ∧
    e_r_score 0 0 0 10 10 img0 = none := by
  refine ⟨e_score_zero_on_img0, ?_⟩
  unfold e_r_score
  rw [e_score_zero_on_img0, Option.some_bind]
  unfold pydiv
  rw [if_pos rfl]

/-!
## Claim C8: thickness clamping
-/

/-- C8 (amended, part proved here): a_score clamps th < 1 to 1, so its result
with any th < 1 equals its result with th = 1 on every image. -/
theorem a_score_clamps_thickness (r th inc rot x_m y_m : ℝ) (data : Image)
    (h : th < 1) :
    a_score r th inc rot x_m y_m data = a_score r 1 inc rot x_m y_m data := by
  unfold a_score
  rw [if_pos h, if_neg (lt_irrefl (1 : ℝ))]

/-- Witness for C8's amended clamp property at th = 0. -/
theorem a_score_clamps_thickness_witness :
    (0 : ℝ) < 1 ∧
    a_score 3 0 0 0 5 5 ⟨7, 7, fun _ _ => 1⟩ =
      a_score 3 1 0 0 5 5 ⟨7, 7, fun _ _ => 1⟩ :=
  ⟨by norm_num, a_score_clamps_thickness 3 0 0 0 5 5 ⟨7, 7, fun _ _ => 1⟩
    (by norm_num)⟩

/-- The iteration domain of a_surf_map: i over [0, H), j over [0, W), in
loop order. -/
def gridHW (H W : ℕ) : List (ℕ × ℕ) :=
  (List.range H).flatMap fun i => (List.range W).map fun j => (i, j)

/-- The write loop of a_surf_map (functions.py lines 380-384): for each (i, j)
with a_z inside the UNCLAMPED band (z > r - th/2 and z < r + th/2) it writes
surf at the TRANSPOSED position map[j, i]; the write raises IndexError
(none) when j >= H or i >= W. -/
noncomputable def aSurfLoop (r th inc rot x_m y_m surf : ℝ) (H W : ℕ) :
    List (ℕ × ℕ) → (ℕ → ℕ → ℝ) → Option (ℕ → ℕ → ℝ)
  | [], m => some m
  | p :: ps, m =>
      if a_z p.1 p.2 inc rot x_m y_m > r - th / 2 ∧
          a_z p.1 p.2 inc rot x_m y_m < r + th / 2 then
        if p.2 < H ∧ p.1 < W then
          aSurfLoop r th inc rot x_m y_m surf H W ps
            (fun a b => if a = p.2 ∧ b = p.1 then surf else m a b)
        else none
      else aSurfLoop r th inc rot x_m y_m surf H W ps m

/-- functions.py, a_surf_map (lines 378-385): a back-filled array of the
image's shape with surf written (transposed) over the annulus band.  The
thickness is NOT clamped here. -/
noncomputable def a_surf_map (r th inc rot x_m y_m surf back : ℝ)
    (data : Image) : Option (ℕ → ℕ → ℝ) :=
  aSurfLoop r th inc rot x_m y_m surf data.H data.W (gridHW data.H data.W)
    (fun _ _ => back)

/-- rotate fixes the origin when the centre is the origin. -/
theorem rotate_zero_zero (rot : ℝ) : rotate 0 0 0 0 rot = (0, 0) := by
  unfold rotate
  norm_num

/-- a_z at the origin with centre (0, 0) is 0. -/
theorem a_z_origin : a_z 0 0 0 0 0 0 = 0 := by
  unfold a_z
  rw [rotate_zero_zero]
  norm_num

/-- a_z at (0, 1) with centre (0, 0), no rotation, no inclination, is 1. -/
theorem a_z_unit : a_z 0 1 0 0 0 0 = 1 := by
  unfold a_z
  unfold rotate
  rw [radians_zero, Real.cos_zero, Real.sin_zero]
  norm_num

/-- C8 counterexample: a_surf_map does NOT clamp th < 1 to 1.  On a 1 x 2
image with r = 7/5 and centre (0, 0): with th = 1/2 neither pixel is in the
band (the map completes, all back); with th = 1 the pixel (0, 1) has
a_z = 1 inside the band (9/10, 19/10), and the transposed write map[1, 0]
falls outside the 1-row array, raising IndexError (none).  So th = 1/2 and
th = 1 give different results, refuting the claim for a_surf_map. -/
theorem a_surf_map_thickness_not_clamped :
    a_surf_map (7 / 5) (1 / 2) 0 0 0 0 5 0 ⟨1, 2, fun _ _ => 0⟩ ≠
      a_surf_map (7 / 5) 1 0 0 0 0 5 0 ⟨1, 2, fun _ _ => 0⟩ := by
  have hgrid : gridHW 1 2 = [(0, 0), (0, 1)] := by rfl
  have hL : a_surf_map (7 / 5) (1 / 2) 0 0 0 0 5 0 ⟨1, 2, fun _ _ => 0⟩ =
      some (fun _ _ => 0) := by
    unfold a_surf_map
    rw [hgrid]
    simp only [aSurfLoop]
    norm_num [a_z_origin, a_z_unit]
  have hR : a_surf_map (7 / 5) 1 0 0 0 0 5 0 ⟨1, 2, fun _ _ => 0⟩ = none := by
    unfold a_surf_map
    rw [hgrid]
    simp only [aSurfLoop]
    norm_num [a_z_origin, a_z_unit]
  rw [hL, hR]
  exact Option.some_ne_none _

/-!
## Claim C3: what the annulus scorers actually iterate over and test
-/

/-- C3 (amended): both annulus scorers loop over the fixed 282 x 282 grid
(which coincides with the image's pixels only when the image is 282 x 282).
Provided every qualifying grid pixel lies inside the relevant array, a_score
includes a pixel iff r - th/2 < z < r + th/2 (th clamped to >= 1,
z = a_z with the square of y divided by cos), counts each included pixel
once, and returns the mean over them (count floored to 1); score_annulus
instead tests the one-sided z < r - th/2 and z < r + th/2 on the SQUARED
distance, with no clamp, and averages the module-level qphi's intensities. -/
theorem annulus_scorers_mean_over_fixed_grid :
    (∀ (r th inc rot x_m y_m : ℝ) (data : Image),
      (∀ i j, i < 282 → j < 282 →
        aCond r (if th < 1 then 1 else th) inc rot x_m y_m i j →
        i < data.H ∧ j < data.W) →
      a_score r th inc rot x_m y_m data = some
        (((bandHits (aCond r (if th < 1 then 1 else th) inc rot x_m y_m)).map
            fun p => data.pix p.1 p.2).sum /
          (if (bandHits (aCond r (if th < 1 then 1 else th) inc rot x_m
              y_m)).length = 0 then 1
            else ((bandHits (aCond r (if th < 1 then 1 else th) inc rot x_m
              y_m)).length : ℝ)))) ∧
    (∀ (qphi : Image) (r th inc t_rot x_m y_m : ℝ) (data : Image),
      (∀ i j, i < 282 → j < 282 → sCond r th inc t_rot x_m y_m i j →
        i < qphi.H ∧ j < qphi.W) →
      score_annulus qphi r th inc t_rot x_m y_m data = some
        (((bandHits (sCond r th inc t_rot x_m y_m)).map
            fun p => qphi.pix p.1 p.2).sum /
          (if (bandHits (sCond r th inc t_rot x_m y_m)).length = 0 then 1
            else ((bandHits (sCond r th inc t_rot x_m y_m)).length : ℝ)))) :=
  ⟨a_score_eq_mean, score_annulus_eq_mean⟩

/-- Witness for C3's amended statement on the 282 x 282 all-zero image,
where the in-bounds hypotheses hold trivially. -/
theorem annulus_scorers_mean_over_fixed_grid_witness :
    (∀ i j : ℕ, i < 282 → j < 282 →
      aCond 1 (if (1 : ℝ) < 1 then 1 else 1) 0 0 10 10 i j →
      i < img0.H ∧ j < img0.W) ∧
    a_score 1 1 0 0 10 10 img0 = some
      (((bandHits (aCond 1 (if (1 : ℝ) < 1 then 1 else 1) 0 0 10 10)).map
          fun p => img0.pix p.1 p.2).sum /
        (if (bandHits (aCond 1 (if (1 : ℝ) < 1 then 1 else 1) 0 0
            10 10)).length = 0 then 1
          else ((bandHits (aCond 1 (if (1 : ℝ) < 1 then 1 else 1) 0 0
            10 10)).length : ℝ))) ∧
    score_annulus img0 1 1 0 0 10 10 ⟨1, 1, fun _ _ => 0⟩ = some
      (((bandHits (sCond 1 1 0 0 10 10)).map
          fun p => img0.pix p.1 p.2).sum /
        (if (bandHits (sCond 1 1 0 0 10 10)).length = 0 then 1
          else ((bandHits (sCond 1 1 0 0 10 10)).length : ℝ))) :=
  ⟨fun i j hi hj _ => ⟨hi, hj⟩,
    annulus_scorers_mean_over_fixed_grid.1 1 1 0 0 10 10 img0
      (fun i j hi hj _ => ⟨hi, hj⟩),
    annulus_scorers_mean_over_fixed_grid.2 img0 1 1 0 0 10 10
      ⟨1, 1, fun _ _ => 0⟩ (fun i j hi hj _ => ⟨hi, hj⟩)⟩

/-- a_z at grid pixel (9, 10) with centre (10, 10), rot = inc = 0, is 1. -/
theorem a_z_nine_ten : a_z ((9 : ℕ) : ℝ) ((10 : ℕ) : ℝ) 0 0 10 10 = 1 := by
  unfold a_z rotate
  rw [radians_zero, Real.cos_zero, Real.sin_zero]
  push_cast
  norm_num

/-- C3 counterexample: a_score does NOT iterate over the pixels of the given
image.  On a 2 x 2 image with the annulus centred at (10, 10), the loop
still visits grid pixel (9, 10), which qualifies (z = 1 lies in (1/2, 3/2))
but is outside the 2 x 2 mask/data arrays, so the scorer raises IndexError
(none) instead of returning the mean over the image's pixels (which would be
0, as no image pixel qualifies). -/
theorem a_score_fixed_grid_escapes_small_image :
    a_score 1 1 0 0 10 10 ⟨2, 2, fun _ _ => 0⟩ = none := by
  have hmem : ((9 : ℕ), (10 : ℕ)) ∈ grid282 :=
    (mem_grid282 _).mpr ⟨by norm_num, by norm_num⟩
  have hP : aCond 1 (if (1 : ℝ) < 1 then 1 else 1) 0 0 10 10 9 10 := by
    unfold aCond
    rw [if_neg (lt_irrefl (1 : ℝ)), a_z_nine_ten]
    norm_num
  have hoob : ¬((9 : ℕ) < (⟨2, 2, fun _ _ => 0⟩ : Image).H ∧
      (10 : ℕ) < (⟨2, 2, fun _ _ => 0⟩ : Image).W) := by
    intro ⟨h1, _⟩
    exact absurd h1 (by norm_num)
  have h := bandLoop_oob (aCond 1 (if (1 : ℝ) < 1 then 1 else 1) 0 0 10 10)
    ⟨2, 2, fun _ _ => 0⟩ grid282 ((9 : ℕ), (10 : ℕ)) hmem hP hoob
    (fun _ _ => false, 0, 0)
  unfold a_score
  rw [h]
  rfl

/-!
## Claim C9: purity of the scorers with respect to module-level state
-/

/-- C9 (amended): score_annulus is a function of the module-level qphi and
the parameters only -- its explicit data argument is ignored entirely, so
any two data arguments give identical results. -/
theorem score_annulus_ignores_data_argument (qphi : Image)
    (r th inc t_rot x_m y_m : ℝ) (d1 d2 : Image) :
    score_annulus qphi r th inc t_rot x_m y_m d1 =
      score_annulus qphi r th inc t_rot x_m y_m d2 := rfl

/-- Helper: a list filter keeps exactly one designated element when that
element is listed and the predicate holds for a listed element iff it is
that element. -/
theorem filter_eq_singleton_of {α : Type} (L : List α) (P : α → Bool) (a : α) :
    L.Nodup → a ∈ L → (∀ x ∈ L, P x = true ↔ x = a) → L.filter P = [a] := by
  induction L with
  | nil => intro _ ha; exact absurd ha (List.not_mem_nil a)
  | cons x t ih =>
      intro hnd ha hiff
      rcases List.mem_cons.mp ha with hax | hat
      · subst hax
        rw [List.filter_cons_of_pos ((hiff a (List.mem_cons_self a t)).mpr rfl)]
        have ht : t.filter P = [] := by
          rw [List.filter_eq_nil_iff]
          intro y hy hPy
          have : y = a := (hiff y (List.mem_cons_of_mem _ hy)).mp hPy
          exact (List.nodup_cons.mp hnd).1 (this ▸ hy)
        rw [ht]
      · have hxa : x ≠ a := by
          intro h
          exact (List.nodup_cons.mp hnd).1 (h ▸ hat)
        rw [List.filter_cons_of_neg (by
          intro hPx
          exact hxa ((hiff x (List.mem_cons_self x t)).mp hPx))]
        exact ih (List.nodup_cons.mp hnd).2 hat
          (fun y hy => hiff y (List.mem_cons_of_mem _ hy))

/-- The squared-distance expression of score_annulus at rot = inc = 0 and
centre (10, 10). -/
theorem annulusZsq_simple (i j : ℕ) :
    annulusZsq i j 0 0 10 10 = ((i : ℝ) - 10) ^ 2 + ((j : ℝ) - 10) ^ 2 := by
  unfold annulusZsq
  rw [radians_zero, Real.cos_zero, Real.sin_zero]
  ring

/-- A natural number distinct from a constant is at real distance at least 1
from it. -/
theorem one_le_offset_sq (i c : ℕ) (h : i ≠ c) :
    (1 : ℝ) ≤ ((i : ℝ) - (c : ℝ)) ^ 2 := by
  have hcast : ((i : ℝ) - (c : ℝ)) = (((i : ℤ) - (c : ℤ) : ℤ) : ℝ) := by
    push_cast
    ring
  rcases (by omega : 1 ≤ (i : ℤ) - (c : ℤ) ∨ (i : ℤ) - (c : ℤ) ≤ -1) with h1 | h1
  · have h2 : (1 : ℝ) ≤ (((i : ℤ) - (c : ℤ) : ℤ) : ℝ) := by exact_mod_cast h1
    rw [hcast]
    nlinarith
  · have h2 : (((i : ℤ) - (c : ℤ) : ℤ) : ℝ) ≤ -1 := by exact_mod_cast h1
    rw [hcast]
    nlinarith

/-- Helper: with r = th = 1, rot = inc = 0, centre (10, 10), the only grid
pixel score_annulus's test accepts is (10, 10). -/
theorem sCond_singleton :
    bandHits (sCond 1 1 0 0 10 10) = [((10 : ℕ), (10 : ℕ))] := by
  unfold bandHits
  apply filter_eq_singleton_of grid282 _ ((10 : ℕ), (10 : ℕ)) nodup_grid282
    ((mem_grid282 _).mpr ⟨by norm_num, by norm_num⟩)
  intro p _
  rw [decide_eq_true_eq]
  constructor
  · intro hc
    have h1 := hc.1
    rw [annulusZsq_simple] at h1
    have hi : p.1 = 10 := by
      by_contra hne
      have hoff := one_le_offset_sq p.1 10 hne
      have hnn := sq_nonneg ((p.2 : ℝ) - 10)
      push_cast at hoff
      linarith
    have hj : p.2 = 10 := by
      by_contra hne
      have hoff := one_le_offset_sq p.2 10 hne
      have hnn := sq_nonneg ((p.1 : ℝ) - 10)
      push_cast at hoff
      linarith
    cases p
    simp_all
  · intro hp
    subst hp
    unfold sCond
    rw [annulusZsq_simple]
    norm_num

/-- The constant-7 282 x 282 image. -/
noncomputable def img7 : Image := ⟨282, 282, fun _ _ => 7⟩

/-- C9 counterexample: score_annulus called twice with identical parameter
tuples and identical data arguments returns 0 when the module-level qphi is
all zero but 7 when qphi is all 7 -- the scorer is NOT a pure function of its
explicit arguments. -/
theorem score_annulus_depends_on_module_state :
    score_annulus img0 1 1 0 0 10 10 ⟨1, 1, fun _ _ => 0⟩ ≠
      score_annulus img7 1 1 0 0 10 10 ⟨1, 1, fun _ _ => 0⟩ := by
  have h0 : score_annulus img0 1 1 0 0 10 10 ⟨1, 1, fun _ _ => 0⟩ =
      some 0 := by
    rw [score_annulus_eq_mean img0 1 1 0 0 10 10 ⟨1, 1, fun _ _ => 0⟩
      (fun i j hi hj _ => ⟨hi, hj⟩)]
    rw [sCond_singleton]
    show some ((img0.pix 10 10 + 0) / _) = some 0
    norm_num [img0]
  have h7 : score_annulus img7 1 1 0 0 10 10 ⟨1, 1, fun _ _ => 0⟩ =
      some 7 := by
    rw [score_annulus_eq_mean img7 1 1 0 0 10 10 ⟨1, 1, fun _ _ => 0⟩
      (fun i j hi hj _ => ⟨hi, hj⟩)]
    rw [sCond_singleton]
    show some ((img7.pix 10 10 + 0) / _) = some 7
    norm_num [img7]
  rw [h0, h7]
  intro h
  have := Option.some.inj h
  norm_num at this

/-!
## Grid searches: functions.py e_best (129-166), a_best (294-329),
## testplot.py best_annulus (168-210)

Each builds an N-dimensional numpy score array sized by the parameter
ranges, fills it inside nested integer loops, and returns
unravel_index(argmax) + the range minima.  We model the array as a function
from offset tuples updated write-by-write (a write outside the allocated
dims models numpy's IndexError as none), and np.argmax/unravel_index as the
first maximum over the cells enumerated in C order.  Because the nested
loops enumerate the parameter box in exactly that C order, the flattened
cell enumeration is the combo list mapped through the offset map, and
unravelling plus adding the minima is the inverse offset map.
-/

/-- The integer range [a, b) in increasing order, as iterated by
Python's range(a, b). -/
def intRange (a b : ℤ) : List ℤ :=
  (List.range (b - a).toNat).map fun k : ℕ => a + (k : ℤ)

/-- Membership in intRange. -/
theorem mem_intRange {a b x : ℤ} : x ∈ intRange a b ↔ a ≤ x ∧ x < b := by
  unfold intRange
  rw [List.mem_map]
  constructor
  · rintro ⟨k, hk, rfl⟩
    rw [List.mem_range] at hk
    omega
  · intro ⟨h1, h2⟩
    refine ⟨(x - a).toNat, ?_, ?_⟩
    · rw [List.mem_range]
      omega
    · omega

/-- The 5-parameter loop nest of e_best in loop order:
r, inc, rot, x_m, y_m. -/
def combos5 (r0 r1 i0 i1 p0 p1 x0 x1 y0 y1 : ℤ) :
    List (ℤ × ℤ × ℤ × ℤ × ℤ) :=
  (intRange r0 r1).flatMap fun r =>
  (intRange i0 i1).flatMap fun inc =>
  (intRange p0 p1).flatMap fun rot =>
  (intRange x0 x1).flatMap fun x_m =>
  (intRange y0 y1).map fun y_m => (r, inc, rot, x_m, y_m)

/-- The 6-parameter loop nest of a_best and best_annulus in loop order:
r, th, inc, rot, x_m, y_m. -/
def combos6 (r0 r1 t0 t1 i0 i1 p0 p1 x0 x1 y0 y1 : ℤ) :
    List (ℤ × ℤ × ℤ × ℤ × ℤ × ℤ) :=
  (intRange r0 r1).flatMap fun r =>
  (intRange t0 t1).flatMap fun th =>
  (intRange i0 i1).flatMap fun inc =>
  (intRange p0 p1).flatMap fun rot =>
  (intRange x0 x1).flatMap fun x_m =>
  (intRange y0 y1).map fun y_m => (r, th, inc, rot, x_m, y_m)

/-- np.argmax on a flattened array: index of the FIRST maximum. -/
noncomputable def argmaxPos : List ℝ → ℕ
  | [] => 0
  | x :: xs =>
    match xs with
    | [] => 0
    | _ :: _ => if xs.getD (argmaxPos xs) 0 ≤ x then 0 else argmaxPos xs + 1

/-- The score-array filling loop: for each parameter combination in loop
order, evaluate the scorer (propagating its failure), then store the value
at the combination's offset tuple -- provided that index is inside the
allocated dims (chk), else IndexError (none). -/
noncomputable def gridFill {κ ι : Type} [DecidableEq ι] (chk : ι → Bool)
    (score : κ → Option ℝ) (offW : κ → ι) :
    List κ → (ι → ℝ) → Option (ι → ℝ)
  | [], A => some A
  | c :: cs, A => (score c).bind fun v =>
      if chk (offW c) then
        gridFill chk score offW cs (Function.update A (offW c) v)
      else none

/-- The common grid-search shape: fill the zero-initialised score array over
the combination list, take the first maximum over the array cells in C order,
and map the winning cell back to parameter space (unravel + minima). -/
noncomputable def gridSearch {κ ι : Type} [DecidableEq ι] (cs : List κ)
    (offW : κ → ι) (cells : List ι) (unoff : ι → κ) (chk : ι → Bool)
    (score : κ → Option ℝ) (d : ι) : Option κ :=
  (gridFill chk score offW cs (fun _ => 0)).map fun A =>
    unoff (cells.getD (argmaxPos (cells.map A)) d)

/-- Offsets of a 5-combination from the range minima (e_best's storage
index, line 146, in allocation order r, inc, rot, x_m, y_m). -/
def off5 (r0 i0 p0 x0 y0 : ℤ) (c : ℤ × ℤ × ℤ × ℤ × ℤ) : ℤ × ℤ × ℤ × ℤ × ℤ :=
  (c.1 - r0, c.2.1 - i0, c.2.2.1 - p0, c.2.2.2.1 - x0, c.2.2.2.2 - y0)

/-- e_best's retrieval (line 158): cell coordinates plus the minima. -/
def unoff5 (r0 i0 p0 x0 y0 : ℤ) (k : ℤ × ℤ × ℤ × ℤ × ℤ) :
    ℤ × ℤ × ℤ × ℤ × ℤ :=
  (k.1 + r0, k.2.1 + i0, k.2.2.1 + p0, k.2.2.2.1 + x0, k.2.2.2.2 + y0)

/-- Bounds check of a 5-index against the allocated dims. -/
def inB5 (d1 d2 d3 d4 d5 : ℤ) (k : ℤ × ℤ × ℤ × ℤ × ℤ) : Bool :=
  decide ((0 ≤ k.1 ∧ k.1 < d1) ∧ (0 ≤ k.2.1 ∧ k.2.1 < d2) ∧
    (0 ≤ k.2.2.1 ∧ k.2.2.1 < d3) ∧ (0 ≤ k.2.2.2.1 ∧ k.2.2.2.1 < d4) ∧
    (0 ≤ k.2.2.2.2 ∧ k.2.2.2.2 < d5))

/-- Offsets of a 6-combination in a_best's consistent storage order
(line 310: r, th, inc, rot, x_m, y_m), which also enumerates the array
cells in C order. -/
def off6 (r0 t0 i0 p0 x0 y0 : ℤ) (c : ℤ × ℤ × ℤ × ℤ × ℤ × ℤ) :
    ℤ × ℤ × ℤ × ℤ × ℤ × ℤ :=
  (c.1 - r0, c.2.1 - t0, c.2.2.1 - i0, c.2.2.2.1 - p0, c.2.2.2.2.1 - x0,
    c.2.2.2.2.2 - y0)

/-- a_best's and best_annulus's retrieval (lines 320 / 201): cell
coordinates plus minima in allocation order r, th, inc, rot, x_m, y_m. -/
def unoff6 (r0 t0 i0 p0 x0 y0 : ℤ) (k : ℤ × ℤ × ℤ × ℤ × ℤ × ℤ) :
    ℤ × ℤ × ℤ × ℤ × ℤ × ℤ :=
  (k.1 + r0, k.2.1 + t0, k.2.2.1 + i0, k.2.2.2.1 + p0, k.2.2.2.2.1 + x0,
    k.2.2.2.2.2 + y0)

/-- Bounds check of a 6-index against the allocated dims. -/
def inB6 (d1 d2 d3 d4 d5 d6 : ℤ) (k : ℤ × ℤ × ℤ × ℤ × ℤ × ℤ) : Bool :=
  decide ((0 ≤ k.1 ∧ k.1 < d1) ∧ (0 ≤ k.2.1 ∧ k.2.1 < d2) ∧
    (0 ≤ k.2.2.1 ∧ k.2.2.1 < d3) ∧ (0 ≤ k.2.2.2.1 ∧ k.2.2.2.1 < d4) ∧
    (0 ≤ k.2.2.2.2.1 ∧ k.2.2.2.2.1 < d5) ∧
    (0 ≤ k.2.2.2.2.2 ∧ k.2.2.2.2.2 < d6))

/-- best_annulus's storage index (testplot.py line 189): the th and inc
offsets are TRANSPOSED relative to the allocation (line 171) and the
retrieval (line 201): it stores at [r - r_min, inc - inc_min, th - th_min,
rot - ..., x - ..., y - ...]. -/
def offW6 (r0 t0 i0 p0 x0 y0 : ℤ) (c : ℤ × ℤ × ℤ × ℤ × ℤ × ℤ) :
    ℤ × ℤ × ℤ × ℤ × ℤ × ℤ :=
  (c.1 - r0, c.2.2.1 - i0, c.2.1 - t0, c.2.2.2.1 - p0, c.2.2.2.2.1 - x0,
    c.2.2.2.2.2 - y0)

/-- functions.py, e_best (lines 129-166). -/
noncomputable def e_best (r0 r1 i0 i1 p0 p1 x0 x1 y0 y1 : ℤ) (data : Image) :
    Option (ℤ × ℤ × ℤ × ℤ × ℤ) :=
  gridSearch (combos5 r0 r1 i0 i1 p0 p1 x0 x1 y0 y1) (off5 r0 i0 p0 x0 y0)
    ((combos5 r0 r1 i0 i1 p0 p1 x0 x1 y0 y1).map (off5 r0 i0 p0 x0 y0))
    (unoff5 r0 i0 p0 x0 y0)
    (inB5 (r1 - r0) (i1 - i0) (p1 - p0) (x1 - x0) (y1 - y0))
    (fun c => e_score c.1 c.2.1 c.2.2.1 c.2.2.2.1 c.2.2.2.2 data)
    (0, 0, 0, 0, 0)

/-- functions.py, a_best (lines 294-329): storage and retrieval agree. -/
noncomputable def a_best (r0 r1 t0 t1 i0 i1 p0 p1 x0 x1 y0 y1 : ℤ)
    (data : Image) : Option (ℤ × ℤ × ℤ × ℤ × ℤ × ℤ) :=
  gridSearch (combos6 r0 r1 t0 t1 i0 i1 p0 p1 x0 x1 y0 y1)
    (off6 r0 t0 i0 p0 x0 y0)
    ((combos6 r0 r1 t0 t1 i0 i1 p0 p1 x0 x1 y0 y1).map (off6 r0 t0 i0 p0 x0 y0))
    (unoff6 r0 t0 i0 p0 x0 y0)
    (inB6 (r1 - r0) (t1 - t0) (i1 - i0) (p1 - p0) (x1 - x0) (y1 - y0))
    (fun c => a_score c.1 c.2.1 c.2.2.1 c.2.2.2.1 c.2.2.2.2.1 c.2.2.2.2.2 data)
    (0, 0, 0, 0, 0, 0)

/-- testplot.py, best_annulus (lines 168-210): the writes go through the
transposed offW6 while the allocation dims, the cell enumeration, and the
retrieval use the consistent order -- exactly the source's inconsistency.
Its scorer is score_annulus, which reads the module-level qphi. -/
noncomputable def best_annulus (qphi : Image)
    (r0 r1 t0 t1 i0 i1 p0 p1 x0 x1 y0 y1 : ℤ) (data : Image) :
    Option (ℤ × ℤ × ℤ × ℤ × ℤ × ℤ) :=
  gridSearch (combos6 r0 r1 t0 t1 i0 i1 p0 p1 x0 x1 y0 y1)
    (offW6 r0 t0 i0 p0 x0 y0)
    ((combos6 r0 r1 t0 t1 i0 i1 p0 p1 x0 x1 y0 y1).map (off6 r0 t0 i0 p0 x0 y0))
    (unoff6 r0 t0 i0 p0 x0 y0)
    (inB6 (r1 - r0) (t1 - t0) (i1 - i0) (p1 - p0) (x1 - x0) (y1 - y0))
    (fun c => score_annulus qphi c.1 c.2.1 c.2.2.1 c.2.2.2.1 c.2.2.2.2.1
      c.2.2.2.2.2 data)
    (0, 0, 0, 0, 0, 0)

/-- C2 counterexample: best_annulus does not return the maximum of its score
array -- with the th range of size 2 and the inc range of size 1 its
transposed store hits index 1 on the inc axis of size 1, so the search
crashes with IndexError (none) and returns no combination at all, although
every range is nonempty and every score evaluates.  (e_best and a_best, whose
storage is consistent, satisfy the claim; see the amended theorem.) -/
theorem best_annulus_transposed_axes_crash :
    (3 : ℤ) < 4 ∧ (3 : ℤ) < 5 ∧ (0 : ℤ) < 1 ∧ (5 : ℤ) < 6 ∧
    best_annulus img0 3 4 3 5 0 1 0 1 5 6 5 6 ⟨1, 1, fun _ _ => 0⟩ = none := by
  refine ⟨by norm_num, by norm_num, by norm_num, by norm_num, ?_⟩
  have hcombos : combos6 3 4 3 5 0 1 0 1 5 6 5 6 =
      [(3, 3, 0, 0, 5, 5), (3, 4, 0, 0, 5, 5)] := by decide
  have hv1 := score_annulus_eq_mean img0 (((3 : ℤ) : ℝ)) (((3 : ℤ) : ℝ))
    (((0 : ℤ) : ℝ)) (((0 : ℤ) : ℝ)) (((5 : ℤ) : ℝ)) (((5 : ℤ) : ℝ))
    ⟨1, 1, fun _ _ => 0⟩ (fun i j hi hj _ => ⟨hi, hj⟩)
  have hv2 := score_annulus_eq_mean img0 (((3 : ℤ) : ℝ)) (((4 : ℤ) : ℝ))
    (((0 : ℤ) : ℝ)) (((0 : ℤ) : ℝ)) (((5 : ℤ) : ℝ)) (((5 : ℤ) : ℝ))
    ⟨1, 1, fun _ _ => 0⟩ (fun i j hi hj _ => ⟨hi, hj⟩)
  unfold best_annulus gridSearch
  rw [hcombos]
  simp only [gridFill]
  rw [hv1]
  simp only [Option.some_bind]
  rw [if_pos (by decide)]
  rw [hv2]
  simp only [Option.some_bind]
  rw [if_neg (by decide)]
  rfl

/-- argmaxPos on a two-or-more list: first max wins. -/
theorem argmaxPos_cons (x y : ℝ) (t : List ℝ) :
    argmaxPos (x :: y :: t) =
      if (y :: t).getD (argmaxPos (y :: t)) 0 ≤ x then 0
      else argmaxPos (y :: t) + 1 := rfl

/-- argmaxPos returns a valid index for nonempty lists. -/
theorem argmaxPos_lt_length : ∀ l : List ℝ, l ≠ [] → argmaxPos l < l.length := by
  intro l
  induction l with
  | nil => intro h; exact absurd rfl h
  | cons x t ih =>
      intro _
      cases t with
      | nil => simp [argmaxPos]
      | cons y s =>
          rw [argmaxPos_cons]
          by_cases hc : (y :: s).getD (argmaxPos (y :: s)) 0 ≤ x
          · rw [if_pos hc]
            simp
          · rw [if_neg hc]
            have h2 := ih (by simp)
            simp only [List.length_cons] at h2 ⊢
            omega

/-- The entry at argmaxPos dominates every list element (np.argmax picks a
maximum). -/
theorem argmaxPos_spec : ∀ l : List ℝ, ∀ x ∈ l, x ≤ l.getD (argmaxPos l) 0 := by
  intro l
  induction l with
  | nil => intro x hx; exact absurd hx (List.not_mem_nil x)
  | cons a t ih =>
      intro x hx
      cases t with
      | nil =>
          rcases List.mem_cons.mp hx with rfl | h
          · simp [argmaxPos]
          · exact absurd h (List.not_mem_nil x)
      | cons y s =>
          rw [argmaxPos_cons]
          by_cases hc : (y :: s).getD (argmaxPos (y :: s)) 0 ≤ a
          · rw [if_pos hc, List.getD_cons_zero]
            rcases List.mem_cons.mp hx with rfl | h
            · exact le_refl x
            · exact le_trans (ih x h) hc
          · rw [if_neg hc, List.getD_cons_succ]
            push_neg at hc
            rcases List.mem_cons.mp hx with rfl | h
            · exact le_of_lt hc
            · exact ih x h

/-- The filling loop succeeds when every score evaluates and every write is
in bounds, and the resulting array holds each combination's score at its
offset (offW injective); untouched cells keep their initial value. -/
theorem gridFill_some {κ ι : Type} [DecidableEq ι] (chk : ι → Bool)
    (score : κ → Option ℝ) (offW : κ → ι) (hinj : Function.Injective offW) :
    ∀ cs : List κ, (∀ c ∈ cs, ∃ v, score c = some v) →
      (∀ c ∈ cs, chk (offW c) = true) → ∀ A0 : ι → ℝ,
      ∃ A, gridFill chk score offW cs A0 = some A ∧
        (∀ c ∈ cs, score c = some (A (offW c))) ∧
        (∀ k, (∀ c ∈ cs, offW c ≠ k) → A k = A0 k) := by
  intro cs
  induction cs with
  | nil =>
      intro _ _ A0
      exact ⟨A0, rfl, fun c hc => absurd hc (List.not_mem_nil c),
        fun _ _ => rfl⟩
  | cons c t ih =>
      intro hsc hchk A0
      obtain ⟨v, hv⟩ := hsc c (List.mem_cons_self c t)
      obtain ⟨A, hA, h1, h2⟩ := ih
        (fun c2 h => hsc c2 (List.mem_cons_of_mem _ h))
        (fun c2 h => hchk c2 (List.mem_cons_of_mem _ h))
        (Function.update A0 (offW c) v)
      refine ⟨A, ?_, ?_, ?_⟩
      · show (score c).bind _ = some A
        rw [hv, Option.some_bind, if_pos (hchk c (List.mem_cons_self c t))]
        exact hA
      · intro c2 hc2
        rcases List.mem_cons.mp hc2 with rfl | h
        · by_cases hmem : ∃ c3 ∈ t, offW c3 = offW c2
          · obtain ⟨c3, hc3, he⟩ := hmem
            have h3 : c3 = c2 := hinj he
            subst h3
            exact h1 c3 hc3
          · push_neg at hmem
            have hAk : A (offW c2) =
                Function.update A0 (offW c2) v (offW c2) :=
              h2 (offW c2) (fun c3 h3 => hmem c3 h3)
            rw [hAk, Function.update_same]
            exact hv
        · exact h1 c2 h
      · intro k hk
        have hAk : A k = Function.update A0 (offW c) v k :=
          h2 k (fun c3 h3 => hk c3 (List.mem_cons_of_mem _ h3))
        rw [hAk, Function.update_noteq
          (fun he => hk c (List.mem_cons_self c t) he.symm)]

/-- Generic optimality of the consistent grid-search shape: when storage,
cell enumeration, and retrieval all use the same injective offset map (as in
e_best and a_best), all scores evaluate, and all writes are in bounds, the
search returns a listed combination whose score is greater than or equal to
that of every enumerated combination. -/
theorem gridSearch_argmax {κ ι : Type} [DecidableEq ι] (cs : List κ)
    (off : κ → ι) (unoff : ι → κ) (chk : ι → Bool) (score : κ → Option ℝ)
    (d : ι) (hne : cs ≠ []) (hinj : Function.Injective off)
    (hunoff : ∀ c, unoff (off c) = c)
    (hchk : ∀ c ∈ cs, chk (off c) = true)
    (hsc : ∀ c ∈ cs, ∃ v, score c = some v) :
    ∃ best, gridSearch cs off (cs.map off) unoff chk score d = some best ∧
      best ∈ cs ∧
      ∀ c ∈ cs, ∀ vc vb, score c = some vc → score best = some vb →
        vc ≤ vb := by
  obtain ⟨A, hA, hval, -⟩ := gridFill_some chk score off hinj cs hsc hchk
    (fun _ => 0)
  have hmm : (cs.map off).map A = cs.map fun c => A (off c) := by
    rw [List.map_map]
    rfl
  have hlnil : (cs.map fun c => A (off c)) ≠ [] := by
    intro h
    exact hne (List.map_eq_nil_iff.mp h)
  have hpos : argmaxPos (cs.map fun c => A (off c)) < cs.length := by
    have := argmaxPos_lt_length _ hlnil
    rwa [List.length_map] at this
  set pos := argmaxPos (cs.map fun c => A (off c)) with hposdef
  set best := cs.get ⟨pos, hpos⟩ with hbest
  have hcell : (cs.map off).getD pos d = off best := by
    rw [List.getD_eq_getElem _ _ (by rw [List.length_map]; exact hpos)]
    rw [List.getElem_map]
    rfl
  have hgetd : (cs.map fun c => A (off c)).getD pos 0 = A (off best) := by
    rw [List.getD_eq_getElem _ _ (by rw [List.length_map]; exact hpos)]
    rw [List.getElem_map]
    rfl
  refine ⟨best, ?_, List.get_mem _ _ _, ?_⟩
  · unfold gridSearch
    rw [hA]
    show some (unoff ((cs.map off).getD
      (argmaxPos ((cs.map off).map A)) d)) = some best
    rw [hmm, ← hposdef, hcell, hunoff]
  · intro c hc vc vb hvc hvb
    have hvc2 : vc = A (off c) := by
      have h := hval c hc
      rw [hvc] at h
      exact Option.some.inj h
    have hvb2 : vb = A (off best) := by
      have h := hval best (List.get_mem _ _ _)
      rw [hvb] at h
      exact Option.some.inj h
    have hmem : A (off c) ∈ (cs.map fun c2 => A (off c2)) :=
      List.mem_map.mpr ⟨c, hc, rfl⟩
    have hb := argmaxPos_spec _ _ hmem
    rw [← hposdef, hgetd] at hb
    rw [hvc2, hvb2]
    exact hb

/-- Retrieval inverts storage for the 5-parameter search. -/
theorem unoff5_off5 (r0 i0 p0 x0 y0 : ℤ) (c : ℤ × ℤ × ℤ × ℤ × ℤ) :
    unoff5 r0 i0 p0 x0 y0 (off5 r0 i0 p0 x0 y0 c) = c := by
  obtain ⟨a, b, c2, d, e⟩ := c
  simp [off5, unoff5]

/-- Retrieval inverts storage for the 6-parameter search. -/
theorem unoff6_off6 (r0 t0 i0 p0 x0 y0 : ℤ) (c : ℤ × ℤ × ℤ × ℤ × ℤ × ℤ) :
    unoff6 r0 t0 i0 p0 x0 y0 (off6 r0 t0 i0 p0 x0 y0 c) = c := by
  obtain ⟨a, b, c2, d, e, f⟩ := c
  simp [off6, unoff6]

/-- Componentwise bounds of a 5-combination. -/
theorem combos5_bounds {r0 r1 i0 i1 p0 p1 x0 x1 y0 y1 : ℤ}
    {c : ℤ × ℤ × ℤ × ℤ × ℤ}
    (hc : c ∈ combos5 r0 r1 i0 i1 p0 p1 x0 x1 y0 y1) :
    (r0 ≤ c.1 ∧ c.1 < r1) ∧ (i0 ≤ c.2.1 ∧ c.2.1 < i1) ∧
    (p0 ≤ c.2.2.1 ∧ c.2.2.1 < p1) ∧ (x0 ≤ c.2.2.2.1 ∧ c.2.2.2.1 < x1) ∧
    (y0 ≤ c.2.2.2.2 ∧ c.2.2.2.2 < y1) := by
  unfold combos5 at hc
  rcases List.mem_flatMap.mp hc with ⟨r, hr, hc⟩
  rcases List.mem_flatMap.mp hc with ⟨inc, hinc, hc⟩
  rcases List.mem_flatMap.mp hc with ⟨rot, hrot, hc⟩
  rcases List.mem_flatMap.mp hc with ⟨x, hx, hc⟩
  rcases List.mem_map.mp hc with ⟨y, hy, rfl⟩
  rw [mem_intRange] at hr hinc hrot hx hy
  exact ⟨hr, hinc, hrot, hx, hy⟩

/-- Componentwise bounds of a 6-combination. -/
theorem combos6_bounds {r0 r1 t0 t1 i0 i1 p0 p1 x0 x1 y0 y1 : ℤ}
    {c : ℤ × ℤ × ℤ × ℤ × ℤ × ℤ}
    (hc : c ∈ combos6 r0 r1 t0 t1 i0 i1 p0 p1 x0 x1 y0 y1) :
    (r0 ≤ c.1 ∧ c.1 < r1) ∧ (t0 ≤ c.2.1 ∧ c.2.1 < t1) ∧
    (i0 ≤ c.2.2.1 ∧ c.2.2.1 < i1) ∧ (p0 ≤ c.2.2.2.1 ∧ c.2.2.2.1 < p1) ∧
    (x0 ≤ c.2.2.2.2.1 ∧ c.2.2.2.2.1 < x1) ∧
    (y0 ≤ c.2.2.2.2.2 ∧ c.2.2.2.2.2 < y1) := by
  unfold combos6 at hc
  rcases List.mem_flatMap.mp hc with ⟨r, hr, hc⟩
  rcases List.mem_flatMap.mp hc with ⟨th, hth, hc⟩
  rcases List.mem_flatMap.mp hc with ⟨inc, hinc, hc⟩
  rcases List.mem_flatMap.mp hc with ⟨rot, hrot, hc⟩
  rcases List.mem_flatMap.mp hc with ⟨x, hx, hc⟩
  rcases List.mem_map.mp hc with ⟨y, hy, rfl⟩
  rw [mem_intRange] at hr hth hinc hrot hx hy
  exact ⟨hr, hth, hinc, hrot, hx, hy⟩

/-- A nonempty 5-parameter box yields a nonempty combination list. -/
theorem combos5_ne_nil {r0 r1 i0 i1 p0 p1 x0 x1 y0 y1 : ℤ} (h1 : r0 < r1)
    (h2 : i0 < i1) (h3 : p0 < p1) (h4 : x0 < x1) (h5 : y0 < y1) :
    combos5 r0 r1 i0 i1 p0 p1 x0 x1 y0 y1 ≠ [] := by
  intro h
  have hm : (r0, i0, p0, x0, y0) ∈ combos5 r0 r1 i0 i1 p0 p1 x0 x1 y0 y1 := by
    unfold combos5
    refine List.mem_flatMap.mpr ⟨r0, mem_intRange.mpr ⟨le_refl _, h1⟩, ?_⟩
    refine List.mem_flatMap.mpr ⟨i0, mem_intRange.mpr ⟨le_refl _, h2⟩, ?_⟩
    refine List.mem_flatMap.mpr ⟨p0, mem_intRange.mpr ⟨le_refl _, h3⟩, ?_⟩
    refine List.mem_flatMap.mpr ⟨x0, mem_intRange.mpr ⟨le_refl _, h4⟩, ?_⟩
    exact List.mem_map.mpr ⟨y0, mem_intRange.mpr ⟨le_refl _, h5⟩, rfl⟩
  rw [h] at hm
  exact List.not_mem_nil _ hm

/-- A nonempty 6-parameter box yields a nonempty combination list. -/
theorem combos6_ne_nil {r0 r1 t0 t1 i0 i1 p0 p1 x0 x1 y0 y1 : ℤ} (h1 : r0 < r1)
    (h2 : t0 < t1) (h3 : i0 < i1) (h4 : p0 < p1) (h5 : x0 < x1)
    (h6 : y0 < y1) : combos6 r0 r1 t0 t1 i0 i1 p0 p1 x0 x1 y0 y1 ≠ [] := by
  intro h
  have hm : (r0, t0, i0, p0, x0, y0) ∈
      combos6 r0 r1 t0 t1 i0 i1 p0 p1 x0 x1 y0 y1 := by
    unfold combos6
    refine List.mem_flatMap.mpr ⟨r0, mem_intRange.mpr ⟨le_refl _, h1⟩, ?_⟩
    refine List.mem_flatMap.mpr ⟨t0, mem_intRange.mpr ⟨le_refl _, h2⟩, ?_⟩
    refine List.mem_flatMap.mpr ⟨i0, mem_intRange.mpr ⟨le_refl _, h3⟩, ?_⟩
    refine List.mem_flatMap.mpr ⟨p0, mem_intRange.mpr ⟨le_refl _, h4⟩, ?_⟩
    refine List.mem_flatMap.mpr ⟨x0, mem_intRange.mpr ⟨le_refl _, h5⟩, ?_⟩
    exact List.mem_map.mpr ⟨y0, mem_intRange.mpr ⟨le_refl _, h6⟩, rfl⟩
  rw [h] at hm
  exact List.not_mem_nil _ hm

/-!
## Claim C2: grid-search optimality
-/

/-- C2 (amended): for every nonempty parameter box in which every enumerated
score evaluates, e_best and a_best -- whose storage index, flattened cell
order, and retrieval all agree -- return an enumerated combination whose
score is greater than or equal to the score of every combination in the box
(it is the maximum of the score array they build).  best_annulus does not
satisfy this: it stores at transposed (inc, th) offsets (see the
counterexample). -/
theorem grid_searches_return_argmax :
    (∀ (r0 r1 i0 i1 p0 p1 x0 x1 y0 y1 : ℤ) (data : Image),
      r0 < r1 → i0 < i1 → p0 < p1 → x0 < x1 → y0 < y1 →
      (∀ c ∈ combos5 r0 r1 i0 i1 p0 p1 x0 x1 y0 y1, ∃ v,
        e_score c.1 c.2.1 c.2.2.1 c.2.2.2.1 c.2.2.2.2 data = some v) →
      ∃ best, e_best r0 r1 i0 i1 p0 p1 x0 x1 y0 y1 data = some best ∧
        best ∈ combos5 r0 r1 i0 i1 p0 p1 x0 x1 y0 y1 ∧
        ∀ c ∈ combos5 r0 r1 i0 i1 p0 p1 x0 x1 y0 y1, ∀ vc vb,
          e_score c.1 c.2.1 c.2.2.1 c.2.2.2.1 c.2.2.2.2 data = some vc →
          e_score best.1 best.2.1 best.2.2.1 best.2.2.2.1 best.2.2.2.2 data =
            some vb →
          vc ≤ vb) ∧
    (∀ (r0 r1 t0 t1 i0 i1 p0 p1 x0 x1 y0 y1 : ℤ) (data : Image),
      r0 < r1 → t0 < t1 → i0 < i1 → p0 < p1 → x0 < x1 → y0 < y1 →
      (∀ c ∈ combos6 r0 r1 t0 t1 i0 i1 p0 p1 x0 x1 y0 y1, ∃ v,
        a_score c.1 c.2.1 c.2.2.1 c.2.2.2.1 c.2.2.2.2.1 c.2.2.2.2.2 data =
          some v) →
      ∃ best, a_best r0 r1 t0 t1 i0 i1 p0 p1 x0 x1 y0 y1 data = some best ∧
        best ∈ combos6 r0 r1 t0 t1 i0 i1 p0 p1 x0 x1 y0 y1 ∧
        ∀ c ∈ combos6 r0 r1 t0 t1 i0 i1 p0 p1 x0 x1 y0 y1, ∀ vc vb,
          a_score c.1 c.2.1 c.2.2.1 c.2.2.2.1 c.2.2.2.2.1 c.2.2.2.2.2 data =
            some vc →
          a_score best.1 best.2.1 best.2.2.1 best.2.2.2.1 best.2.2.2.2.1
            best.2.2.2.2.2 data = some vb →
          vc ≤ vb) := by
  constructor
  · intro r0 r1 i0 i1 p0 p1 x0 x1 y0 y1 data h1 h2 h3 h4 h5 hsc
    have hinj : Function.Injective (off5 r0 i0 p0 x0 y0) :=
      Function.LeftInverse.injective (g := unoff5 r0 i0 p0 x0 y0)
        (unoff5_off5 r0 i0 p0 x0 y0)
    have hchk : ∀ c ∈ combos5 r0 r1 i0 i1 p0 p1 x0 x1 y0 y1,
        inB5 (r1 - r0) (i1 - i0) (p1 - p0) (x1 - x0) (y1 - y0)
          (off5 r0 i0 p0 x0 y0 c) = true := by
      intro c hc
      obtain ⟨hb1, hb2, hb3, hb4, hb5⟩ := combos5_bounds hc
      simp only [inB5, off5, decide_eq_true_eq]
      omega
    exact gridSearch_argmax (combos5 r0 r1 i0 i1 p0 p1 x0 x1 y0 y1)
      (off5 r0 i0 p0 x0 y0) (unoff5 r0 i0 p0 x0 y0)
      (inB5 (r1 - r0) (i1 - i0) (p1 - p0) (x1 - x0) (y1 - y0))
      (fun c => e_score c.1 c.2.1 c.2.2.1 c.2.2.2.1 c.2.2.2.2 data)
      (0, 0, 0, 0, 0) (combos5_ne_nil h1 h2 h3 h4 h5) hinj
      (unoff5_off5 r0 i0 p0 x0 y0) hchk hsc
  · intro r0 r1 t0 t1 i0 i1 p0 p1 x0 x1 y0 y1 data h1 h2 h3 h4 h5 h6 hsc
    have hinj : Function.Injective (off6 r0 t0 i0 p0 x0 y0) :=
      Function.LeftInverse.injective (g := unoff6 r0 t0 i0 p0 x0 y0)
        (unoff6_off6 r0 t0 i0 p0 x0 y0)
    have hchk : ∀ c ∈ combos6 r0 r1 t0 t1 i0 i1 p0 p1 x0 x1 y0 y1,
        inB6 (r1 - r0) (t1 - t0) (i1 - i0) (p1 - p0) (x1 - x0) (y1 - y0)
          (off6 r0 t0 i0 p0 x0 y0 c) = true := by
      intro c hc
      obtain ⟨hb1, hb2, hb3, hb4, hb5, hb6⟩ := combos6_bounds hc
      simp only [inB6, off6, decide_eq_true_eq]
      omega
    exact gridSearch_argmax (combos6 r0 r1 t0 t1 i0 i1 p0 p1 x0 x1 y0 y1)
      (off6 r0 t0 i0 p0 x0 y0) (unoff6 r0 t0 i0 p0 x0 y0)
      (inB6 (r1 - r0) (t1 - t0) (i1 - i0) (p1 - p0) (x1 - x0) (y1 - y0))
      (fun c => a_score c.1 c.2.1 c.2.2.1 c.2.2.2.1 c.2.2.2.2.1 c.2.2.2.2.2
        data)
      (0, 0, 0, 0, 0, 0) (combos6_ne_nil h1 h2 h3 h4 h5 h6) hinj
      (unoff6_off6 r0 t0 i0 p0 x0 y0) hchk hsc

/-- Helper: every score of the singleton 5-parameter box around
(0, 0, 0, 10, 10) evaluates on the all-zero image. -/
theorem singleton_box5_scores :
    ∀ c ∈ combos5 0 1 0 1 0 1 10 11 10 11, ∃ v,
      e_score c.1 c.2.1 c.2.2.1 c.2.2.2.1 c.2.2.2.2 img0 = some v := by
  intro c hc
  rw [show combos5 0 1 0 1 0 1 10 11 10 11 = [(0, 0, 0, 10, 10)] from
    by decide] at hc
  rw [List.mem_singleton] at hc
  subst hc
  refine ⟨0, ?_⟩
  show e_score ((0 : ℤ) : ℝ) ((0 : ℤ) : ℝ) ((0 : ℤ) : ℝ) ((10 : ℤ) : ℝ)
    ((10 : ℤ) : ℝ) img0 = some 0
  push_cast
  exact e_score_zero_on_img0

/-- Helper: every score of the singleton 6-parameter box around
(-5, 1, 0, 0, 0, 0) evaluates on a 1 x 1 image. -/
theorem singleton_box6_scores :
    ∀ c ∈ combos6 (-5) (-4) 1 2 0 1 0 1 0 1 0 1, ∃ v,
      a_score c.1 c.2.1 c.2.2.1 c.2.2.2.1 c.2.2.2.2.1 c.2.2.2.2.2
        ⟨1, 1, fun _ _ => 0⟩ = some v := by
  intro c hc
  rw [show combos6 (-5) (-4) 1 2 0 1 0 1 0 1 0 1 = [(-5, 1, 0, 0, 0, 0)] from
    by decide] at hc
  rw [List.mem_singleton] at hc
  subst hc
  refine ⟨0, ?_⟩
  show a_score ((-5 : ℤ) : ℝ) ((1 : ℤ) : ℝ) ((0 : ℤ) : ℝ) ((0 : ℤ) : ℝ)
    ((0 : ℤ) : ℝ) ((0 : ℤ) : ℝ) ⟨1, 1, fun _ _ => 0⟩ = some 0
  push_cast
  exact a_score_noband_eval

/-- Witness for C2's amended statement on concrete singleton boxes. -/
theorem grid_searches_return_argmax_witness :
    ((0 : ℤ) < 1 ∧ (10 : ℤ) < 11 ∧
      ∃ best, e_best 0 1 0 1 0 1 10 11 10 11 img0 = some best ∧
        best ∈ combos5 0 1 0 1 0 1 10 11 10 11 ∧
        ∀ c ∈ combos5 0 1 0 1 0 1 10 11 10 11, ∀ vc vb,
          e_score c.1 c.2.1 c.2.2.1 c.2.2.2.1 c.2.2.2.2 img0 = some vc →
          e_score best.1 best.2.1 best.2.2.1 best.2.2.2.1 best.2.2.2.2 img0 =
            some vb →
          vc ≤ vb) ∧
    ((-5 : ℤ) < -4 ∧ (1 : ℤ) < 2 ∧ (0 : ℤ) < 1 ∧
      ∃ best, a_best (-5) (-4) 1 2 0 1 0 1 0 1 0 1 ⟨1, 1, fun _ _ => 0⟩ =
          some best ∧
        best ∈ combos6 (-5) (-4) 1 2 0 1 0 1 0 1 0 1 ∧
        ∀ c ∈ combos6 (-5) (-4) 1 2 0 1 0 1 0 1 0 1, ∀ vc vb,
          a_score c.1 c.2.1 c.2.2.1 c.2.2.2.1 c.2.2.2.2.1 c.2.2.2.2.2
            ⟨1, 1, fun _ _ => 0⟩ = some vc →
          a_score best.1 best.2.1 best.2.2.1 best.2.2.2.1 best.2.2.2.2.1
            best.2.2.2.2.2 ⟨1, 1, fun _ _ => 0⟩ = some vb →
          vc ≤ vb) := by
  constructor
  · refine ⟨by norm_num, by norm_num, ?_⟩
    exact grid_searches_return_argmax.1 0 1 0 1 0 1 10 11 10 11 img0
      (by norm_num) (by norm_num) (by norm_num) (by norm_num) (by norm_num)
      singleton_box5_scores
  · refine ⟨by norm_num, by norm_num, by norm_num, ?_⟩
    exact grid_searches_return_argmax.2 (-5) (-4) 1 2 0 1 0 1 0 1 0 1
      ⟨1, 1, fun _ _ => 0⟩ (by norm_num) (by norm_num) (by norm_num)
      (by norm_num) (by norm_num) (by norm_num) singleton_box6_scores
